import Mathlib

set_option maxRecDepth 40000

/-!
A C-subset execution engine and its conformance fixtures.

The repository contains seven C fixture programs (`program36.c`, `program61.c`,
`program62.c`, `program63.c`, `program67.c`, `program68.c`, `program88.c`); the
execution engine they exercise is described in the specification but its source
is not part of the visible material.  We therefore model the engine from the
specification (a fuel-indexed evaluator over an addressable store, with the
error taxonomy the specification gives) and embed each fixture program as an
abstract syntax tree translated directly from its C source.  All theorems are
stated over this development.
-/

/-- Modelled from the spec: the runtime error taxonomy of the (missing)
evaluator component (`RuntimeError` with its seven listed kinds). -/
inductive RuntimeError where
  | divisionByZero
  | invalidPointerOp
  | outOfBounds
  | noReturnFromMain
  | missingReturnValue
  | stackOverflow
  | stepLimitExceeded
deriving DecidableEq, Repr

/-- Modelled from the spec: a runtime value is a signed integer, or a pointer
value — an index into the addressable store plus a bound descriptor
(base index, element count). -/
inductive Value where
  | int (n : Int)
  | ptr (base count : Nat) (addr : Int)
deriving DecidableEq, Repr

/-- Modelled from the spec: the addressable store is a flat, growable sequence
of integer cells backing all array storage. -/
abbrev Store := List Int

/-- Modelled from the spec: a local variable slot of an activation record holds
either a scalar value or a declared array (a contiguous run of store cells,
recorded by base index and element count). -/
inductive Binding where
  | scalar (v : Value)
  | arr (base count : Nat)
deriving DecidableEq, Repr

/-- Modelled from the spec: an activation record's local variable slots,
keyed by source name. -/
abbrev Env := List (String × Binding)

/-- Binary operators of the modelled expression grammar (logical `&&`/`||`
are separate, short-circuiting expression forms). -/
inductive BinOp where
  | add | sub | mul | div | mod
  | eq | ne | lt | gt | le | ge
deriving DecidableEq, Repr

/-- Modelled from the spec: expressions of the C subset (integer literals,
identifiers, unary minus and logical not, dereference, short-circuit `&&`
and `||`, binary operators, array indexing, function calls). -/
inductive Expr where
  | intLit (n : Int)
  | ident (x : String)
  | neg (a : Expr)
  | lnot (a : Expr)
  | deref (a : Expr)
  | andE (l r : Expr)
  | orE (l r : Expr)
  | bin (op : BinOp) (l r : Expr)
  | index (a i : Expr)
  | call (f : String) (args : List Expr)

/-- Modelled from the spec: statements of the C subset (scalar and array
declarations, assignment, `if`, `while`, `for`, `return`). -/
inductive Stmt where
  | declScalar (x : String)
  | declArr (x : String) (size : Nat)
  | assign (lhs rhs : Expr)
  | ifS (cond : Expr) (thn els : List Stmt)
  | whileS (cond : Expr) (body : List Stmt)
  | forS (init upd : Stmt) (cond : Expr) (body : List Stmt)
  | ret (e : Expr)

/-- A function declaration: name, by-value parameters, body. -/
structure FunDecl where
  name : String
  params : List String
  body : List Stmt

/-- A checked program: its function declarations. -/
abbrev Program := List FunDecl

/-- Result of a fuel-indexed evaluation step: a definitive value, a definitive
runtime error, a definitively ill-typed state (unreachable for programs the
semantic checker accepts), or fuel exhaustion. -/
inductive Res (α : Type) where
  | ok (a : α)
  | err (e : RuntimeError)
  | stuck
  | oof
deriving DecidableEq, Repr

/-- A result is definitive when it is not fuel exhaustion. -/
def Res.Definitive {α : Type} : Res α → Prop
  | .oof => False
  | _ => True

instance {α : Type} : DecidablePred (@Res.Definitive α) := by
  intro r
  cases r <;> simp [Res.Definitive] <;> infer_instance

def Res.map {α β : Type} (f : α → β) : Res α → Res β
  | .ok a => .ok (f a)
  | .err e => .err e
  | .stuck => .stuck
  | .oof => .oof

/-- A storage location: a named scalar slot or a store cell. -/
inductive Loc where
  | var (x : String)
  | cell (idx : Nat)
deriving DecidableEq, Repr

/-- Evaluation job: an expression, an argument list, an lvalue, a statement,
a statement list, a `for`-loop continuation, or a function call. -/
inductive Job where
  | expr (env : Env) (e : Expr)
  | exprs (env : Env) (es : List Expr)
  | lval (env : Env) (e : Expr)
  | stmt (env : Env) (s : Stmt)
  | stmts (env : Env) (ss : List Stmt)
  | floop (env : Env) (upd : Stmt) (cond : Expr) (body : List Stmt)
  | call (f : String) (args : List Value)

/-- Evaluation outcome: a value, a value list, a location, or statement
completion (normal or via `return`), each paired with the updated store. -/
inductive JOut where
  | val (v : Value) (store : Store)
  | vals (vs : List Value) (store : Store)
  | loc (l : Loc) (store : Store)
  | norm (env : Env) (store : Store)
  | retd (v : Value) (store : Store)
deriving DecidableEq, Repr

/-- Sequence a job result expected to be a value into a continuation. -/
def Res.bindVal (r : Res JOut) (g : Value → Store → Res JOut) : Res JOut :=
  match r with
  | .ok (.val v s) => g v s
  | .ok _ => .stuck
  | .err e => .err e
  | .stuck => .stuck
  | .oof => .oof

/-- Sequence a job result expected to be a value list into a continuation. -/
def Res.bindVals (r : Res JOut) (g : List Value → Store → Res JOut) : Res JOut :=
  match r with
  | .ok (.vals vs s) => g vs s
  | .ok _ => .stuck
  | .err e => .err e
  | .stuck => .stuck
  | .oof => .oof

/-- Sequence a job result expected to be a location into a continuation. -/
def Res.bindLoc (r : Res JOut) (g : Loc → Store → Res JOut) : Res JOut :=
  match r with
  | .ok (.loc l s) => g l s
  | .ok _ => .stuck
  | .err e => .err e
  | .stuck => .stuck
  | .oof => .oof

/-- Sequence a statement-shaped job result: normal completion feeds the
continuation, a `return` propagates. -/
def Res.bindStmt (r : Res JOut) (g : Env → Store → Res JOut) : Res JOut :=
  match r with
  | .ok (.norm env s) => g env s
  | .ok (.retd v s) => .ok (.retd v s)
  | .ok _ => .stuck
  | .err e => .err e
  | .stuck => .stuck
  | .oof => .oof

/-- Turn the outcome of a callee's body into the call's outcome: the first
executed `return` is the call's value; completing the body without `return`
is `RuntimeError::MissingReturnValue`. -/
def Res.callWrap (r : Res JOut) : Res JOut :=
  match r with
  | .ok (.retd v s) => .ok (.val v s)
  | .ok (.norm _ _) => .err .missingReturnValue
  | .ok _ => .stuck
  | .err e => .err e
  | .stuck => .stuck
  | .oof => .oof

/-- Turn the outcome of `main`'s body into the program result: the returned
integer, or `RuntimeError::NoReturnFromMain` on fall-through. -/
def Res.progWrap (r : Res JOut) : Res Int :=
  match r with
  | .ok (.retd (.int n) _) => .ok n
  | .ok (.retd _ _) => .stuck
  | .ok (.norm _ _) => .err .noReturnFromMain
  | .ok _ => .stuck
  | .err e => .err e
  | .stuck => .stuck
  | .oof => .oof

/-- Look up a name in an activation record (innermost binding first). -/
def lookupVar : Env → String → Option Binding
  | [], _ => none
  | (y, b) :: rest, x => if x = y then some b else lookupVar rest x

/-- Overwrite the innermost binding of a name with a scalar value. -/
def updateVar : Env → String → Value → Option Env
  | [], _, _ => none
  | (y, b) :: rest, x, v =>
      if x = y then some ((y, .scalar v) :: rest)
      else (updateVar rest x v).map ((y, b) :: ·)

/-- Modelled from the spec: dereferencing a pointer is bounds-checked against
the `[base, base + count)` descriptor of its originating array; outside it the
result is `RuntimeError::OutOfBounds`. -/
def readPtr (s : Store) : Value → Res Value
  | .ptr b c a =>
      if (b : Int) ≤ a ∧ a < (b : Int) + c then .ok (.int (s.getD a.toNat 0))
      else .err .outOfBounds
  | .int _ => .stuck

/-- Truth of a condition value: a nonzero integer. -/
def Value.isTrue : Value → Res Bool
  | .int n => .ok (n ≠ 0)
  | .ptr _ _ _ => .stuck

/-- Modelled from the spec: binary operators on signed integers with C
truncating division (`Int.tdiv`) and remainder taking the sign of the dividend
(`Int.tmod`); division or modulo by zero is `RuntimeError::DivisionByZero`.
Pointer arithmetic moves the index within the same region; comparing or
subtracting pointers from different regions is
`RuntimeError::InvalidPointerOp`. -/
def applyBin : BinOp → Value → Value → Res Value
  | .add, .int a, .int b => .ok (.int (a + b))
  | .sub, .int a, .int b => .ok (.int (a - b))
  | .mul, .int a, .int b => .ok (.int (a * b))
  | .div, .int a, .int b =>
      if b = 0 then .err .divisionByZero else .ok (.int (a.tdiv b))
  | .mod, .int a, .int b =>
      if b = 0 then .err .divisionByZero else .ok (.int (a.tmod b))
  | .eq, .int a, .int b => .ok (.int (if a = b then 1 else 0))
  | .ne, .int a, .int b => .ok (.int (if a = b then 0 else 1))
  | .lt, .int a, .int b => .ok (.int (if a < b then 1 else 0))
  | .gt, .int a, .int b => .ok (.int (if b < a then 1 else 0))
  | .le, .int a, .int b => .ok (.int (if a ≤ b then 1 else 0))
  | .ge, .int a, .int b => .ok (.int (if b ≤ a then 1 else 0))
  | .add, .ptr b c a, .int k => .ok (.ptr b c (a + k))
  | .sub, .ptr b c a, .int k => .ok (.ptr b c (a - k))
  | .sub, .ptr b1 c1 a1, .ptr b2 c2 a2 =>
      if b1 = b2 ∧ c1 = c2 then .ok (.int (a1 - a2)) else .err .invalidPointerOp
  | .eq, .ptr b1 c1 a1, .ptr b2 c2 a2 =>
      if b1 = b2 ∧ c1 = c2 then .ok (.int (if a1 = a2 then 1 else 0))
      else .err .invalidPointerOp
  | .ne, .ptr b1 c1 a1, .ptr b2 c2 a2 =>
      if b1 = b2 ∧ c1 = c2 then .ok (.int (if a1 = a2 then 0 else 1))
      else .err .invalidPointerOp
  | .lt, .ptr b1 c1 a1, .ptr b2 c2 a2 =>
      if b1 = b2 ∧ c1 = c2 then .ok (.int (if a1 < a2 then 1 else 0))
      else .err .invalidPointerOp
  | .gt, .ptr b1 c1 a1, .ptr b2 c2 a2 =>
      if b1 = b2 ∧ c1 = c2 then .ok (.int (if a2 < a1 then 1 else 0))
      else .err .invalidPointerOp
  | .le, .ptr b1 c1 a1, .ptr b2 c2 a2 =>
      if b1 = b2 ∧ c1 = c2 then .ok (.int (if a1 ≤ a2 then 1 else 0))
      else .err .invalidPointerOp
  | .ge, .ptr b1 c1 a1, .ptr b2 c2 a2 =>
      if b1 = b2 ∧ c1 = c2 then .ok (.int (if a2 ≤ a1 then 1 else 0))
      else .err .invalidPointerOp
  | _, _, _ => .stuck

/-- Find a function declaration by name. -/
def lookupFn (P : Program) (f : String) : Option FunDecl :=
  P.find? (fun d => d.name = f)

/-- Bind parameters to argument values (by value), one slot each. -/
def bindParams : List String → List Value → Option Env
  | [], [] => some []
  | x :: xs, v :: vs => (bindParams xs vs).map ((x, .scalar v) :: ·)
  | _, _ => none

/-- Modelled from the spec: the evaluator.  `run P fuel store job` executes one
evaluation job; every recursive step consumes one unit of fuel, so the fuel
bounds the nesting depth (call depth, loop iterations, expression depth) and
exhausting it yields the non-definitive `Res.oof`.  Argument evaluation is
left to right; assignment evaluates the right-hand side first; `if` takes the
branch selected by a nonzero condition; `while`/`for` re-evaluate the
condition before every iteration; a function call binds parameters by value in
a fresh activation record and propagates the first executed `return`; a call
that completes without `return` is `RuntimeError::MissingReturnValue`. -/
def run (P : Program) : Nat → Store → Job → Res JOut
  | 0, _, _ => .oof
  | fuel + 1, store, job =>
    match job with
    | .expr env e =>
      match e with
      | .intLit n => .ok (.val (.int n) store)
      | .ident x =>
        match lookupVar env x with
        | some (.scalar v) => .ok (.val v store)
        | some (.arr b c) => .ok (.val (.ptr b c b) store)
        | none => .stuck
      | .neg a =>
        (run P fuel store (.expr env a)).bindVal fun v s =>
          match v with
          | .int n => .ok (.val (.int (-n)) s)
          | _ => .stuck
      | .lnot a =>
        (run P fuel store (.expr env a)).bindVal fun v s =>
          match v with
          | .int n => .ok (.val (.int (if n = 0 then 1 else 0)) s)
          | _ => .stuck
      | .deref a =>
        (run P fuel store (.expr env a)).bindVal fun v s =>
          (readPtr s v).map fun c => .val c s
      | .andE l r =>
        (run P fuel store (.expr env l)).bindVal fun v1 s1 =>
          match v1.isTrue with
          | .ok false => .ok (.val (.int 0) s1)
          | .ok true =>
            (run P fuel s1 (.expr env r)).bindVal fun v2 s2 =>
              match v2.isTrue with
              | .ok b => .ok (.val (.int (if b then 1 else 0)) s2)
              | _ => .stuck
          | _ => .stuck
      | .orE l r =>
        (run P fuel store (.expr env l)).bindVal fun v1 s1 =>
          match v1.isTrue with
          | .ok true => .ok (.val (.int 1) s1)
          | .ok false =>
            (run P fuel s1 (.expr env r)).bindVal fun v2 s2 =>
              match v2.isTrue with
              | .ok b => .ok (.val (.int (if b then 1 else 0)) s2)
              | _ => .stuck
          | _ => .stuck
      | .bin op l r =>
        (run P fuel store (.expr env l)).bindVal fun v1 s1 =>
          (run P fuel s1 (.expr env r)).bindVal fun v2 s2 =>
            (applyBin op v1 v2).map fun v => .val v s2
      | .index a i =>
        (run P fuel store (.expr env a)).bindVal fun va s1 =>
          (run P fuel s1 (.expr env i)).bindVal fun vi s2 =>
            match va, vi with
            | .ptr b c ad, .int k => (readPtr s2 (.ptr b c (ad + k))).map fun v => .val v s2
            | _, _ => .stuck
      | .call f args =>
        (run P fuel store (.exprs env args)).bindVals fun vs s1 =>
          run P fuel s1 (.call f vs)
    | .exprs env es =>
      match es with
      | [] => .ok (.vals [] store)
      | e :: rest =>
        (run P fuel store (.expr env e)).bindVal fun v s1 =>
          (run P fuel s1 (.exprs env rest)).bindVals fun vs s2 =>
            .ok (.vals (v :: vs) s2)
    | .lval env e =>
      match e with
      | .ident x =>
        match lookupVar env x with
        | some (.scalar _) => .ok (.loc (.var x) store)
        | _ => .stuck
      | .index a i =>
        (run P fuel store (.expr env a)).bindVal fun va s1 =>
          (run P fuel s1 (.expr env i)).bindVal fun vi s2 =>
            match va, vi with
            | .ptr b c ad, .int k =>
                if (b : Int) ≤ ad + k ∧ ad + k < (b : Int) + c then
                  .ok (.loc (.cell (ad + k).toNat) s2)
                else .err .outOfBounds
            | _, _ => .stuck
      | .deref a =>
        (run P fuel store (.expr env a)).bindVal fun va s1 =>
          match va with
          | .ptr b c ad =>
              if (b : Int) ≤ ad ∧ ad < (b : Int) + c then
                .ok (.loc (.cell ad.toNat) s1)
              else .err .outOfBounds
          | _ => .stuck
      | _ => .stuck
    | .stmt env s =>
      match s with
      | .declScalar x => .ok (.norm ((x, .scalar (.int 0)) :: env) store)
      | .declArr x n =>
          .ok (.norm ((x, .arr store.length n) :: env) (store ++ List.replicate n 0))
      | .assign lhs rhs =>
        (run P fuel store (.expr env rhs)).bindVal fun v s1 =>
          (run P fuel s1 (.lval env lhs)).bindLoc fun l s2 =>
            match l with
            | .var x =>
              match updateVar env x v with
              | some env2 => .ok (.norm env2 s2)
              | none => .stuck
            | .cell idx =>
              match v with
              | .int n => .ok (.norm env (s2.set idx n))
              | _ => .stuck
      | .ifS cond thn els =>
        (run P fuel store (.expr env cond)).bindVal fun v s1 =>
          match v.isTrue with
          | .ok true => run P fuel s1 (.stmts env thn)
          | .ok false => run P fuel s1 (.stmts env els)
          | _ => .stuck
      | .whileS cond body =>
        (run P fuel store (.expr env cond)).bindVal fun v s1 =>
          match v.isTrue with
          | .ok false => .ok (.norm env s1)
          | .ok true =>
            (run P fuel s1 (.stmts env body)).bindStmt fun env2 s2 =>
              run P fuel s2 (.stmt env2 (.whileS cond body))
          | _ => .stuck
      | .forS init upd cond body =>
        (run P fuel store (.stmt env init)).bindStmt fun env1 s1 =>
          run P fuel s1 (.floop env1 upd cond body)
      | .ret e =>
        (run P fuel store (.expr env e)).bindVal fun v s1 => .ok (.retd v s1)
    | .stmts env ss =>
      match ss with
      | [] => .ok (.norm env store)
      | s :: rest =>
        (run P fuel store (.stmt env s)).bindStmt fun env1 s1 =>
          run P fuel s1 (.stmts env1 rest)
    | .floop env upd cond body =>
      (run P fuel store (.expr env cond)).bindVal fun v s1 =>
        match v.isTrue with
        | .ok false => .ok (.norm env s1)
        | .ok true =>
          (run P fuel s1 (.stmts env body)).bindStmt fun env2 s2 =>
            (run P fuel s2 (.stmt env2 upd)).bindStmt fun env3 s3 =>
              run P fuel s3 (.floop env3 upd cond body)
        | _ => .stuck
    | .call f args =>
      match lookupFn P f with
      | none => .stuck
      | some d =>
        match bindParams d.params args with
        | none => .stuck
        | some env0 => (run P fuel store (.stmts env0 d.body)).callWrap

/-- Modelled from the spec: program execution invokes `main` with zero
arguments in an empty store; the integer it returns is the program result, and
falling through `main` without `return` is `RuntimeError::NoReturnFromMain`. -/
def runProgram (P : Program) (fuel : Nat) : Res Int :=
  match lookupFn P "main" with
  | none => .stuck
  | some m =>
    if m.params = [] then (run P fuel [] (.stmts [] m.body)).progWrap
    else .stuck

/-- A whole program computes a definitive result `r` when some fuel suffices
to produce it. -/
def Computes (P : Program) (r : Res Int) : Prop :=
  r.Definitive ∧ ∃ fuel, runProgram P fuel = r

/-- A job evaluates to a definitive result `r` when some fuel suffices. -/
def Evals (P : Program) (store : Store) (job : Job) (r : Res JOut) : Prop :=
  r.Definitive ∧ ∃ fuel, run P fuel store job = r

/-- Function `power` from `src/examples/valid/program36.c`. -/
def power : FunDecl :=
  ⟨"power", ["base", "exp"],
    [ .ifS (.bin .eq (.ident "exp") (.intLit 0)) [.ret (.intLit 1)] [],
      .ret (.bin .mul (.ident "base")
        (.call "power" [.ident "base", .bin .sub (.ident "exp") (.intLit 1)])) ]⟩

/-- Fixture `src/examples/valid/program36.c`: `power(2,4)` driven by `main`. -/
def program36 : Program :=
  [ power,
    ⟨"main", [], [ .ret (.call "power" [.intLit 2, .intLit 4]) ]⟩ ]

/-- Function `linear_search` from `src/examples/valid/program61.c`. -/
def linear_search : FunDecl :=
  ⟨"linear_search", ["arr", "n", "key"],
    [ .declScalar "i",
      .forS (.assign (.ident "i") (.intLit 0))
            (.assign (.ident "i") (.bin .add (.ident "i") (.intLit 1)))
            (.bin .lt (.ident "i") (.ident "n"))
        [ .ifS (.bin .eq (.index (.ident "arr") (.ident "i")) (.ident "key"))
            [.ret (.ident "i")] [] ],
      .ret (.neg (.intLit 1)) ]⟩

/-- Fixture `src/examples/valid/program61.c`. -/
def program61 : Program :=
  [ linear_search,
    ⟨"main", [],
      [ .declArr "arr" 5,
        .assign (.index (.ident "arr") (.intLit 0)) (.intLit 10),
        .assign (.index (.ident "arr") (.intLit 1)) (.intLit 20),
        .assign (.index (.ident "arr") (.intLit 2)) (.intLit 30),
        .assign (.index (.ident "arr") (.intLit 3)) (.intLit 40),
        .assign (.index (.ident "arr") (.intLit 4)) (.intLit 50),
        .ret (.call "linear_search" [.ident "arr", .intLit 5, .intLit 30]) ]⟩ ]

/-- Function `binary_search_recursive` from `src/examples/valid/program62.c`. -/
def binary_search_recursive : FunDecl :=
  ⟨"binary_search_recursive", ["arr", "left", "right", "key"],
    [ .declScalar "mid",
      .ifS (.bin .gt (.ident "left") (.ident "right")) [.ret (.neg (.intLit 1))] [],
      .assign (.ident "mid")
        (.bin .div (.bin .add (.ident "left") (.ident "right")) (.intLit 2)),
      .ifS (.bin .eq (.index (.ident "arr") (.ident "mid")) (.ident "key"))
        [.ret (.ident "mid")] [],
      .ifS (.bin .gt (.index (.ident "arr") (.ident "mid")) (.ident "key"))
        [.ret (.call "binary_search_recursive"
          [.ident "arr", .ident "left", .bin .sub (.ident "mid") (.intLit 1), .ident "key"])] [],
      .ret (.call "binary_search_recursive"
        [.ident "arr", .bin .add (.ident "mid") (.intLit 1), .ident "right", .ident "key"]) ]⟩

/-- Fixture `src/examples/valid/program62.c`. -/
def program62 : Program :=
  [ binary_search_recursive,
    ⟨"main", [],
      [ .declArr "arr" 5,
        .assign (.index (.ident "arr") (.intLit 0)) (.intLit 1),
        .assign (.index (.ident "arr") (.intLit 1)) (.intLit 3),
        .assign (.index (.ident "arr") (.intLit 2)) (.intLit 5),
        .assign (.index (.ident "arr") (.intLit 3)) (.intLit 7),
        .assign (.index (.ident "arr") (.intLit 4)) (.intLit 9),
        .ret (.call "binary_search_recursive"
          [.ident "arr", .intLit 0, .intLit 4, .intLit 5]) ]⟩ ]

/-- Function `sum_recursive` from `src/examples/valid/program63.c`. -/
def sum_recursive : FunDecl :=
  ⟨"sum_recursive", ["arr", "n"],
    [ .ifS (.bin .le (.ident "n") (.intLit 0)) [.ret (.intLit 0)] [],
      .ret (.bin .add
        (.index (.ident "arr") (.bin .sub (.ident "n") (.intLit 1)))
        (.call "sum_recursive" [.ident "arr", .bin .sub (.ident "n") (.intLit 1)])) ]⟩

/-- Fixture `src/examples/valid/program63.c`. -/
def program63 : Program :=
  [ sum_recursive,
    ⟨"main", [],
      [ .declArr "arr" 4,
        .assign (.index (.ident "arr") (.intLit 0)) (.intLit 1),
        .assign (.index (.ident "arr") (.intLit 1)) (.intLit 2),
        .assign (.index (.ident "arr") (.intLit 2)) (.intLit 3),
        .assign (.index (.ident "arr") (.intLit 3)) (.intLit 4),
        .ret (.call "sum_recursive" [.ident "arr", .intLit 4]) ]⟩ ]

/-- Function `reverse_number` from `src/examples/valid/program67.c`. -/
def reverse_number : FunDecl :=
  ⟨"reverse_number", ["n"],
    [ .declScalar "reversed",
      .assign (.ident "reversed") (.intLit 0),
      .whileS (.bin .ne (.ident "n") (.intLit 0))
        [ .assign (.ident "reversed")
            (.bin .add (.bin .mul (.ident "reversed") (.intLit 10))
                       (.bin .mod (.ident "n") (.intLit 10))),
          .assign (.ident "n") (.bin .div (.ident "n") (.intLit 10)) ],
      .ret (.ident "reversed") ]⟩

/-- Fixture `src/examples/valid/program67.c`. -/
def program67 : Program :=
  [ reverse_number,
    ⟨"main", [], [ .ret (.call "reverse_number" [.intLit 123]) ]⟩ ]

/-- Function `is_prime` from `src/examples/valid/program68.c`. -/
def is_prime : FunDecl :=
  ⟨"is_prime", ["n"],
    [ .declScalar "i",
      .ifS (.bin .le (.ident "n") (.intLit 1)) [.ret (.intLit 0)] [],
      .forS (.assign (.ident "i") (.intLit 2))
            (.assign (.ident "i") (.bin .add (.ident "i") (.intLit 1)))
            (.bin .lt (.ident "i") (.ident "n"))
        [ .ifS (.bin .eq (.bin .mod (.ident "n") (.ident "i")) (.intLit 0))
            [.ret (.intLit 0)] [] ],
      .ret (.intLit 1) ]⟩

/-- Fixture `src/examples/valid/program68.c`. -/
def program68 : Program :=
  [ is_prime,
    ⟨"main", [], [ .ret (.call "is_prime" [.intLit 17]) ]⟩ ]

/-- Function `sum` from `src/examples/valid/program88.c`. -/
def sum : FunDecl :=
  ⟨"sum", ["start", "end"],
    [ .declScalar "total",
      .assign (.ident "total") (.intLit 0),
      .whileS (.bin .lt (.ident "start") (.ident "end"))
        [ .assign (.ident "total") (.bin .add (.ident "total") (.deref (.ident "start"))),
          .assign (.ident "start") (.bin .add (.ident "start") (.intLit 1)) ],
      .ret (.ident "total") ]⟩

/-- Fixture `src/examples/valid/program88.c`. -/
def program88 : Program :=
  [ sum,
    ⟨"main", [],
      [ .declArr "numbers" 3,
        .assign (.index (.ident "numbers") (.intLit 0)) (.intLit 2),
        .assign (.index (.ident "numbers") (.intLit 1)) (.intLit 4),
        .assign (.index (.ident "numbers") (.intLit 2)) (.intLit 6),
        .ret (.call "sum" [.ident "numbers", .bin .add (.ident "numbers") (.intLit 3)]) ]⟩ ]


/-- Fuel-indexed approximation: `a` approximates `b` when `a` is fuel
exhaustion or `a` equals `b`. -/
def Res.le {α : Type} (a b : Res α) : Prop := a = .oof ∨ a = b

theorem Res.le_rfl {α : Type} {a : Res α} : a.le a := Or.inr rfl

theorem Res.le_trans {α : Type} {a b c : Res α} (h1 : a.le b) (h2 : b.le c) :
    a.le c := by
  rcases h1 with h1 | h1
  · exact Or.inl h1
  · subst h1; exact h2

theorem Res.le_definitive {α : Type} {a b : Res α} (h : a.le b)
    (hd : a.Definitive) : b = a := by
  rcases h with h | h
  · subst h; exact absurd hd (by simp [Res.Definitive])
  · exact h.symm

theorem Res.bindVal_mono {a a' : Res JOut} {g g' : Value → Store → Res JOut}
    (h : a.le a') (hg : ∀ v s, (g v s).le (g' v s)) :
    (a.bindVal g).le (a'.bindVal g') := by
  rcases h with h | h
  · subst h; exact Or.inl rfl
  · subst h
    cases a with
    | ok j =>
      cases j with
      | val v s => exact hg v s
      | vals vs s => exact Or.inr rfl
      | loc l s => exact Or.inr rfl
      | norm env s => exact Or.inr rfl
      | retd v s => exact Or.inr rfl
    | err e => exact Or.inr rfl
    | stuck => exact Or.inr rfl
    | oof => exact Or.inl rfl

theorem Res.bindVals_mono {a a' : Res JOut} {g g' : List Value → Store → Res JOut}
    (h : a.le a') (hg : ∀ vs s, (g vs s).le (g' vs s)) :
    (a.bindVals g).le (a'.bindVals g') := by
  rcases h with h | h
  · subst h; exact Or.inl rfl
  · subst h
    cases a with
    | ok j =>
      cases j with
      | val v s => exact Or.inr rfl
      | vals vs s => exact hg vs s
      | loc l s => exact Or.inr rfl
      | norm env s => exact Or.inr rfl
      | retd v s => exact Or.inr rfl
    | err e => exact Or.inr rfl
    | stuck => exact Or.inr rfl
    | oof => exact Or.inl rfl

theorem Res.bindLoc_mono {a a' : Res JOut} {g g' : Loc → Store → Res JOut}
    (h : a.le a') (hg : ∀ l s, (g l s).le (g' l s)) :
    (a.bindLoc g).le (a'.bindLoc g') := by
  rcases h with h | h
  · subst h; exact Or.inl rfl
  · subst h
    cases a with
    | ok j =>
      cases j with
      | val v s => exact Or.inr rfl
      | vals vs s => exact Or.inr rfl
      | loc l s => exact hg l s
      | norm env s => exact Or.inr rfl
      | retd v s => exact Or.inr rfl
    | err e => exact Or.inr rfl
    | stuck => exact Or.inr rfl
    | oof => exact Or.inl rfl

theorem Res.bindStmt_mono {a a' : Res JOut} {g g' : Env → Store → Res JOut}
    (h : a.le a') (hg : ∀ env s, (g env s).le (g' env s)) :
    (a.bindStmt g).le (a'.bindStmt g') := by
  rcases h with h | h
  · subst h; exact Or.inl rfl
  · subst h
    cases a with
    | ok j =>
      cases j with
      | val v s => exact Or.inr rfl
      | vals vs s => exact Or.inr rfl
      | loc l s => exact Or.inr rfl
      | norm env s => exact hg env s
      | retd v s => exact Or.inr rfl
    | err e => exact Or.inr rfl
    | stuck => exact Or.inr rfl
    | oof => exact Or.inl rfl

theorem Res.callWrap_mono {a a' : Res JOut} (h : a.le a') :
    a.callWrap.le a'.callWrap := by
  rcases h with h | h
  · subst h; exact Or.inl rfl
  · subst h; exact Or.inr rfl

theorem Res.progWrap_mono {a a' : Res JOut} (h : a.le a') :
    a.progWrap.le a'.progWrap := by
  rcases h with h | h
  · subst h; exact Or.inl rfl
  · subst h; exact Or.inr rfl

/-- Evaluation is monotone in fuel: adding fuel can only turn fuel exhaustion
into a result, never change a definitive result. -/
theorem run_mono (P : Program) :
    ∀ (f : Nat) (store : Store) (job : Job),
      (run P f store job).le (run P (f + 1) store job) := by
  intro f
  induction f with
  | zero => intro store job; exact Or.inl rfl
  | succ f ih =>
    intro store job
    cases job with
    | expr env e =>
      cases e with
      | intLit n => exact Or.inr rfl
      | ident x => exact Or.inr rfl
      | neg a =>
        exact Res.bindVal_mono (ih _ _) fun v s => Res.le_rfl
      | lnot a =>
        exact Res.bindVal_mono (ih _ _) fun v s => Res.le_rfl
      | deref a =>
        exact Res.bindVal_mono (ih _ _) fun v s => Res.le_rfl
      | andE l r =>
        refine Res.bindVal_mono (ih _ _) fun v s => ?_
        simp only [run]
        cases hv : v.isTrue with
        | ok b =>
          cases b with
          | false => exact Res.le_rfl
          | true => exact Res.bindVal_mono (ih _ _) fun v2 s2 => Res.le_rfl
        | err e => exact Res.le_rfl
        | stuck => exact Res.le_rfl
        | oof => exact Res.le_rfl
      | orE l r =>
        refine Res.bindVal_mono (ih _ _) fun v s => ?_
        simp only [run]
        cases hv : v.isTrue with
        | ok b =>
          cases b with
          | true => exact Res.le_rfl
          | false => exact Res.bindVal_mono (ih _ _) fun v2 s2 => Res.le_rfl
        | err e => exact Res.le_rfl
        | stuck => exact Res.le_rfl
        | oof => exact Res.le_rfl
      | bin op l r =>
        exact Res.bindVal_mono (ih _ _) fun v1 s1 =>
          Res.bindVal_mono (ih _ _) fun v2 s2 => Res.le_rfl
      | index a i =>
        exact Res.bindVal_mono (ih _ _) fun va s1 =>
          Res.bindVal_mono (ih _ _) fun vi s2 => Res.le_rfl
      | call f args =>
        exact Res.bindVals_mono (ih _ _) fun vs s1 => ih _ _
    | exprs env es =>
      cases es with
      | nil => exact Or.inr rfl
      | cons e rest =>
        exact Res.bindVal_mono (ih _ _) fun v s1 =>
          Res.bindVals_mono (ih _ _) fun vs s2 => Res.le_rfl
    | lval env e =>
      cases e with
      | intLit n => exact Or.inr rfl
      | ident x => exact Or.inr rfl
      | neg a => exact Or.inr rfl
      | lnot a => exact Or.inr rfl
      | deref a =>
        exact Res.bindVal_mono (ih _ _) fun v s => Res.le_rfl
      | andE l r => exact Or.inr rfl
      | orE l r => exact Or.inr rfl
      | bin op l r => exact Or.inr rfl
      | index a i =>
        exact Res.bindVal_mono (ih _ _) fun va s1 =>
          Res.bindVal_mono (ih _ _) fun vi s2 => Res.le_rfl
      | call f args => exact Or.inr rfl
    | stmt env s =>
      cases s with
      | declScalar x => exact Or.inr rfl
      | declArr x n => exact Or.inr rfl
      | assign lhs rhs =>
        exact Res.bindVal_mono (ih _ _) fun v s1 =>
          Res.bindLoc_mono (ih _ _) fun l s2 => Res.le_rfl
      | ifS cond thn els =>
        refine Res.bindVal_mono (ih _ _) fun v s1 => ?_
        cases hv : v.isTrue with
        | ok b =>
          cases b with
          | true => exact ih _ _
          | false => exact ih _ _
        | err e => exact Res.le_rfl
        | stuck => exact Res.le_rfl
        | oof => exact Res.le_rfl
      | whileS cond body =>
        refine Res.bindVal_mono (ih _ _) fun v s1 => ?_
        cases hv : v.isTrue with
        | ok b =>
          cases b with
          | false => exact Res.le_rfl
          | true =>
            exact Res.bindStmt_mono (ih _ _) fun env2 s2 => ih _ _
        | err e => exact Res.le_rfl
        | stuck => exact Res.le_rfl
        | oof => exact Res.le_rfl
      | forS init upd cond body =>
        exact Res.bindStmt_mono (ih _ _) fun env1 s1 => ih _ _
      | ret e =>
        exact Res.bindVal_mono (ih _ _) fun v s1 => Res.le_rfl
    | stmts env ss =>
      cases ss with
      | nil => exact Or.inr rfl
      | cons s rest =>
        exact Res.bindStmt_mono (ih _ _) fun env1 s1 => ih _ _
    | floop env upd cond body =>
      refine Res.bindVal_mono (ih _ _) fun v s1 => ?_
      cases hv : v.isTrue with
      | ok b =>
        cases b with
        | false => exact Res.le_rfl
        | true =>
          exact Res.bindStmt_mono (ih _ _) fun env2 s2 =>
            Res.bindStmt_mono (ih _ _) fun env3 s3 => ih _ _
      | err e => exact Res.le_rfl
      | stuck => exact Res.le_rfl
      | oof => exact Res.le_rfl
    | call f args =>
      cases hl : lookupFn P f with
      | none => simp only [run, hl]; exact Or.inr rfl
      | some d =>
        simp only [run, hl]
        cases hb : bindParams d.params args with
        | none => exact Or.inr rfl
        | some env0 => exact Res.callWrap_mono (ih _ _)

theorem run_le_of_le (P : Program) {f f' : Nat} (h : f ≤ f')
    (store : Store) (job : Job) :
    (run P f store job).le (run P f' store job) := by
  induction h with
  | refl => exact Res.le_rfl
  | step _ ih => exact Res.le_trans ih (run_mono P _ _ _)

/-- A definitive evaluation result is stable under extra fuel. -/
theorem run_definitive_stable (P : Program) {f f' : Nat} (h : f ≤ f')
    {store : Store} {job : Job} {r : Res JOut}
    (hr : run P f store job = r) (hd : r.Definitive) :
    run P f' store job = r := by
  have hle := run_le_of_le P h store job
  rw [hr] at hle
  exact Res.le_definitive hle hd

theorem runProgram_mono (P : Program) (f : Nat) :
    (runProgram P f).le (runProgram P (f + 1)) := by
  cases hl : lookupFn P "main" with
  | none => simp only [runProgram, hl]; exact Res.le_rfl
  | some m =>
    simp only [runProgram, hl]
    by_cases hm : m.params = []
    · simp only [hm, if_pos rfl]
      exact Res.progWrap_mono (run_mono P _ _ _)
    · simp only [if_neg hm]
      exact Res.le_rfl

theorem runProgram_le_of_le (P : Program) {f f' : Nat} (h : f ≤ f') :
    (runProgram P f).le (runProgram P f') := by
  induction h with
  | refl => exact Res.le_rfl
  | step _ ih => exact Res.le_trans ih (runProgram_mono P _)

/-- A definitive program result is stable under extra fuel. -/
theorem runProgram_definitive_stable (P : Program) {f f' : Nat} (h : f ≤ f')
    {r : Res Int} (hr : runProgram P f = r) (hd : r.Definitive) :
    runProgram P f' = r := by
  have hle := runProgram_le_of_le P h
  rw [hr] at hle
  exact Res.le_definitive hle hd

/-- A program has at most one definitive result. -/
theorem Computes_unique {P : Program} {r r' : Res Int}
    (h : Computes P r) (h' : Computes P r') : r = r' := by
  obtain ⟨hd, f, hf⟩ := h
  obtain ⟨hd', f', hf'⟩ := h'
  rcases Nat.le_total f f' with hle | hle
  · have := runProgram_definitive_stable P hle hf hd
    rw [this] at hf'
    exact hf'
  · have := runProgram_definitive_stable P hle hf' hd'
    rw [this] at hf
    exact hf.symm
/-- A job has at most one definitive result. -/
theorem Evals_unique {P : Program} {store : Store} {job : Job} {r r' : Res JOut}
    (h : Evals P store job r) (h' : Evals P store job r') : r = r' := by
  obtain ⟨hd, f, hf⟩ := h
  obtain ⟨hd', f', hf'⟩ := h'
  rcases Nat.le_total f f' with hle | hle
  · have := run_definitive_stable P hle hf hd
    rw [this] at hf'
    exact hf'
  · have := run_definitive_stable P hle hf' hd'
    rw [this] at hf
    exact hf.symm

/-- C1: each of the three arithmetic fixtures terminates and returns the
mathematically expected integer: `program36` returns `16 = 2 ^ 4`,
`program68` returns `1` (17 is prime), and `program67` returns `321`
(the decimal reversal of 123). -/
theorem C1_arithmetic_fixture_results :
    (Computes program36 (.ok 16) ∧ (2 : Int) ^ 4 = 16) ∧
    (Computes program68 (.ok 1) ∧ Nat.Prime 17) ∧
    (Computes program67 (.ok 321) ∧
      Nat.ofDigits 10 ((Nat.digits 10 123).reverse) = 321) :=
  ⟨⟨⟨trivial, 40, by decide⟩, by norm_num⟩,
   ⟨⟨trivial, 60, by decide⟩, by norm_num⟩,
   ⟨⟨trivial, 40, by decide⟩, by norm_num [Nat.ofDigits_cons, Nat.ofDigits_nil]⟩⟩

/-- C2: with the store holding `[10,20,30,40,50]`, the call
`linear_search(arr, 5, 30)` evaluates to `2`, and the linear-search fixture's
`main` terminates returning `2`. -/
theorem C2_linear_search_returns_two :
    Evals program61 [10, 20, 30, 40, 50]
      (.call "linear_search" [.ptr 0 5 0, .int 5, .int 30])
      (.ok (.val (.int 2) [10, 20, 30, 40, 50])) ∧
    Computes program61 (.ok 2) :=
  ⟨⟨trivial, 60, by decide⟩, ⟨trivial, 60, by decide⟩⟩

/-- C3: with the store holding `[1,3,5,7,9]`, the call
`binary_search_recursive(arr, 0, 4, 5)` evaluates to `2`, and the recursive
binary-search fixture's `main` terminates returning `2`. -/
theorem C3_binary_search_returns_two :
    Evals program62 [1, 3, 5, 7, 9]
      (.call "binary_search_recursive" [.ptr 0 5 0, .int 0, .int 4, .int 5])
      (.ok (.val (.int 2) [1, 3, 5, 7, 9])) ∧
    Computes program62 (.ok 2) :=
  ⟨⟨trivial, 60, by decide⟩, ⟨trivial, 60, by decide⟩⟩

/-- C4: with the store holding `[2,4,6]`, the call `sum(numbers, numbers + 3)`
— whose second argument is the one-past-the-end pointer `.ptr 0 3 3` —
evaluates to `12` without any runtime error, and the pointer-sum fixture's
`main` terminates returning `12`. -/
theorem C4_pointer_sum_returns_twelve :
    Evals program88 [2, 4, 6]
      (.call "sum" [.ptr 0 3 0, .ptr 0 3 3])
      (.ok (.val (.int 12) [2, 4, 6])) ∧
    Computes program88 (.ok 12) :=
  ⟨⟨trivial, 60, by decide⟩, ⟨trivial, 60, by decide⟩⟩

theorem Res.definitive_iff {α : Type} {r : Res α} : r.Definitive ↔ r ≠ .oof := by
  cases r <;> simp [Res.Definitive]

theorem Res.map_definitive {α β : Type} {f : α → β} {a : Res α}
    (h : a.Definitive) : (a.map f).Definitive := by
  cases a <;> simp_all [Res.map, Res.Definitive]

theorem Res.bindVal_definitive {r : Res JOut} {g : Value → Store → Res JOut}
    (h : r.Definitive) (hg : ∀ v s, (g v s).Definitive) :
    (r.bindVal g).Definitive := by
  cases r with
  | ok j => cases j <;> first | exact hg _ _ | trivial
  | err e => trivial
  | stuck => trivial
  | oof => exact h.elim

theorem Res.callWrap_definitive {r : Res JOut} (h : r.Definitive) :
    r.callWrap.Definitive := by
  cases r with
  | ok j => cases j <;> trivial
  | err e => trivial
  | stuck => trivial
  | oof => exact h.elim

theorem applyBin_definitive (op : BinOp) (v1 v2 : Value) :
    (applyBin op v1 v2).Definitive := by
  cases op <;> cases v1 <;> cases v2 <;>
    first
      | trivial
      | (simp only [applyBin]; split <;> trivial)

theorem readPtr_definitive (s : Store) (v : Value) : (readPtr s v).Definitive := by
  cases v with
  | int n => trivial
  | ptr b c a => simp only [readPtr]; split <;> trivial

/-- From a definitive evaluation, a fuel bound past which every fuel gives the
same result. -/
theorem Evals.run_at {P : Program} {store : Store} {job : Job} {r : Res JOut}
    (h : Evals P store job r) : ∃ f, ∀ F, f ≤ F → run P F store job = r := by
  obtain ⟨hd, f, hf⟩ := h
  exact ⟨f, fun F hF => run_definitive_stable P hF hf hd⟩

theorem Evals_intLit {P : Program} {store : Store} {env : Env} {n : Int} :
    Evals P store (.expr env (.intLit n)) (.ok (.val (.int n) store)) :=
  ⟨trivial, 1, rfl⟩

theorem Evals_ident {P : Program} {store : Store} {env : Env} {x : String}
    {v : Value} (h : lookupVar env x = some (.scalar v)) :
    Evals P store (.expr env (.ident x)) (.ok (.val v store)) :=
  ⟨trivial, 1, by simp [run, h]⟩

theorem Evals_ident_arr {P : Program} {store : Store} {env : Env} {x : String}
    {b c : Nat} (h : lookupVar env x = some (.arr b c)) :
    Evals P store (.expr env (.ident x)) (.ok (.val (.ptr b c b) store)) :=
  ⟨trivial, 1, by simp [run, h]⟩

theorem Evals_neg {P : Program} {store : Store} {env : Env} {a : Expr}
    {n : Int} {s : Store}
    (h : Evals P store (.expr env a) (.ok (.val (.int n) s))) :
    Evals P store (.expr env (.neg a)) (.ok (.val (.int (-n)) s)) := by
  obtain ⟨f, hf⟩ := h.run_at
  refine ⟨trivial, f + 1, ?_⟩
  simp only [run]
  rw [hf f (Nat.le_refl f)]
  rfl

theorem Evals_bin {P : Program} {store : Store} {env : Env} {op : BinOp}
    {l r : Expr} {v1 v2 : Value} {s1 s2 : Store}
    (h1 : Evals P store (.expr env l) (.ok (.val v1 s1)))
    (h2 : Evals P s1 (.expr env r) (.ok (.val v2 s2))) :
    Evals P store (.expr env (.bin op l r))
      ((applyBin op v1 v2).map fun v => .val v s2) := by
  obtain ⟨f1, hf1⟩ := h1.run_at
  obtain ⟨f2, hf2⟩ := h2.run_at
  refine ⟨Res.map_definitive (applyBin_definitive op v1 v2), max f1 f2 + 1, ?_⟩
  simp only [run]
  rw [hf1 (max f1 f2) (Nat.le_max_left f1 f2)]
  simp only [Res.bindVal]
  rw [hf2 (max f1 f2) (Nat.le_max_right f1 f2)]

theorem Evals_bin_err_left {P : Program} {store : Store} {env : Env}
    {op : BinOp} {l r : Expr} {e : RuntimeError}
    (h1 : Evals P store (.expr env l) (.err e)) :
    Evals P store (.expr env (.bin op l r)) (.err e) := by
  obtain ⟨f1, hf1⟩ := h1.run_at
  refine ⟨trivial, f1 + 1, ?_⟩
  simp only [run]
  rw [hf1 f1 (Nat.le_refl f1)]
  rfl

theorem Evals_index {P : Program} {store : Store} {env : Env} {a i : Expr}
    {b c : Nat} {ad k : Int} {s1 s2 : Store}
    (h1 : Evals P store (.expr env a) (.ok (.val (.ptr b c ad) s1)))
    (h2 : Evals P s1 (.expr env i) (.ok (.val (.int k) s2))) :
    Evals P store (.expr env (.index a i))
      ((readPtr s2 (.ptr b c (ad + k))).map fun v => .val v s2) := by
  obtain ⟨f1, hf1⟩ := h1.run_at
  obtain ⟨f2, hf2⟩ := h2.run_at
  refine ⟨Res.map_definitive (readPtr_definitive s2 _), max f1 f2 + 1, ?_⟩
  simp only [run]
  rw [hf1 (max f1 f2) (Nat.le_max_left f1 f2)]
  simp only [Res.bindVal]
  rw [hf2 (max f1 f2) (Nat.le_max_right f1 f2)]

theorem Evals_exprs_nil {P : Program} {store : Store} {env : Env} :
    Evals P store (.exprs env []) (.ok (.vals [] store)) :=
  ⟨trivial, 1, rfl⟩

theorem Evals_exprs_cons {P : Program} {store : Store} {env : Env} {e : Expr}
    {rest : List Expr} {v : Value} {vs : List Value} {s1 s2 : Store}
    (h1 : Evals P store (.expr env e) (.ok (.val v s1)))
    (h2 : Evals P s1 (.exprs env rest) (.ok (.vals vs s2))) :
    Evals P store (.exprs env (e :: rest)) (.ok (.vals (v :: vs) s2)) := by
  obtain ⟨f1, hf1⟩ := h1.run_at
  obtain ⟨f2, hf2⟩ := h2.run_at
  refine ⟨trivial, max f1 f2 + 1, ?_⟩
  simp only [run]
  rw [hf1 (max f1 f2) (Nat.le_max_left f1 f2)]
  simp only [Res.bindVal]
  rw [hf2 (max f1 f2) (Nat.le_max_right f1 f2)]
  rfl

theorem Evals_callJob {P : Program} {store : Store} {fn : String}
    {d : FunDecl} {args : List Value} {env0 : Env} {r : Res JOut}
    (hl : lookupFn P fn = some d)
    (hb : bindParams d.params args = some env0)
    (h : Evals P store (.stmts env0 d.body) r) :
    Evals P store (.call fn args) r.callWrap := by
  obtain ⟨f, hf⟩ := h.run_at
  refine ⟨Res.callWrap_definitive h.1, f + 1, ?_⟩
  simp only [run, hl, hb]
  rw [hf f (Nat.le_refl f)]

theorem Evals_callExpr {P : Program} {store : Store} {env : Env} {fn : String}
    {args : List Expr} {vs : List Value} {s1 : Store} {r : Res JOut}
    (h1 : Evals P store (.exprs env args) (.ok (.vals vs s1)))
    (h2 : Evals P s1 (.call fn vs) r) :
    Evals P store (.expr env (.call fn args)) r := by
  obtain ⟨f1, hf1⟩ := h1.run_at
  obtain ⟨f2, hf2⟩ := h2.run_at
  refine ⟨h2.1, max f1 f2 + 1, ?_⟩
  simp only [run]
  rw [hf1 (max f1 f2) (Nat.le_max_left f1 f2)]
  simp only [Res.bindVals]
  rw [hf2 (max f1 f2) (Nat.le_max_right f1 f2)]

theorem Evals_declScalar {P : Program} {store : Store} {env : Env} {x : String} :
    Evals P store (.stmt env (.declScalar x))
      (.ok (.norm ((x, .scalar (.int 0)) :: env) store)) :=
  ⟨trivial, 1, rfl⟩

theorem Evals_lval_ident {P : Program} {store : Store} {env : Env}
    {x : String} {w : Value} (hx : lookupVar env x = some (.scalar w)) :
    Evals P store (.lval env (.ident x)) (.ok (.loc (.var x) store)) :=
  ⟨trivial, 1, by simp [run, hx]⟩

theorem Evals_assign_var {P : Program} {store : Store} {env env2 : Env}
    {x : String} {rhs : Expr} {v w : Value} {s1 : Store}
    (h1 : Evals P store (.expr env rhs) (.ok (.val v s1)))
    (hx : lookupVar env x = some (.scalar w))
    (hu : updateVar env x v = some env2) :
    Evals P store (.stmt env (.assign (.ident x) rhs)) (.ok (.norm env2 s1)) := by
  obtain ⟨f1, hf1⟩ := h1.run_at
  obtain ⟨f2, hf2⟩ := (@Evals_lval_ident P s1 env x w hx).run_at
  refine ⟨trivial, max f1 f2 + 1, ?_⟩
  simp only [run]
  rw [hf1 (max f1 f2) (Nat.le_max_left f1 f2)]
  simp only [Res.bindVal]
  rw [hf2 (max f1 f2) (Nat.le_max_right f1 f2)]
  simp only [Res.bindLoc, hu]

theorem Evals_ret {P : Program} {store : Store} {env : Env} {e : Expr}
    {r : Res JOut} (h : Evals P store (.expr env e) r) :
    Evals P store (.stmt env (.ret e))
      (r.bindVal fun v s1 => .ok (.retd v s1)) := by
  obtain ⟨f, hf⟩ := h.run_at
  refine ⟨Res.bindVal_definitive h.1 (fun _ _ => trivial), f + 1, ?_⟩
  simp only [run]
  rw [hf f (Nat.le_refl f)]

theorem Evals_if_true {P : Program} {store : Store} {env : Env} {c : Expr}
    {thn els : List Stmt} {n : Int} {s1 : Store} {r : Res JOut}
    (h1 : Evals P store (.expr env c) (.ok (.val (.int n) s1)))
    (hn : n ≠ 0)
    (h2 : Evals P s1 (.stmts env thn) r) :
    Evals P store (.stmt env (.ifS c thn els)) r := by
  obtain ⟨f1, hf1⟩ := h1.run_at
  obtain ⟨f2, hf2⟩ := h2.run_at
  refine ⟨h2.1, max f1 f2 + 1, ?_⟩
  simp only [run]
  rw [hf1 (max f1 f2) (Nat.le_max_left f1 f2)]
  simp only [Res.bindVal, Value.isTrue, decide_eq_true (show n ≠ 0 from hn)]
  rw [hf2 (max f1 f2) (Nat.le_max_right f1 f2)]

theorem Evals_if_false {P : Program} {store : Store} {env : Env} {c : Expr}
    {thn els : List Stmt} {s1 : Store} {r : Res JOut}
    (h1 : Evals P store (.expr env c) (.ok (.val (.int 0) s1)))
    (h2 : Evals P s1 (.stmts env els) r) :
    Evals P store (.stmt env (.ifS c thn els)) r := by
  obtain ⟨f1, hf1⟩ := h1.run_at
  obtain ⟨f2, hf2⟩ := h2.run_at
  refine ⟨h2.1, max f1 f2 + 1, ?_⟩
  simp only [run]
  rw [hf1 (max f1 f2) (Nat.le_max_left f1 f2)]
  simp only [Res.bindVal, Value.isTrue]
  rw [hf2 (max f1 f2) (Nat.le_max_right f1 f2)]
  rfl

theorem Evals_if_err {P : Program} {store : Store} {env : Env} {c : Expr}
    {thn els : List Stmt} {e : RuntimeError}
    (h1 : Evals P store (.expr env c) (.err e)) :
    Evals P store (.stmt env (.ifS c thn els)) (.err e) := by
  obtain ⟨f1, hf1⟩ := h1.run_at
  refine ⟨trivial, f1 + 1, ?_⟩
  simp only [run]
  rw [hf1 f1 (Nat.le_refl f1)]
  rfl

theorem Evals_stmts_nil {P : Program} {store : Store} {env : Env} :
    Evals P store (.stmts env []) (.ok (.norm env store)) :=
  ⟨trivial, 1, rfl⟩

theorem Evals_stmts_cons_norm {P : Program} {store : Store} {env env1 : Env}
    {s : Stmt} {rest : List Stmt} {s1 : Store} {r : Res JOut}
    (h1 : Evals P store (.stmt env s) (.ok (.norm env1 s1)))
    (h2 : Evals P s1 (.stmts env1 rest) r) :
    Evals P store (.stmts env (s :: rest)) r := by
  obtain ⟨f1, hf1⟩ := h1.run_at
  obtain ⟨f2, hf2⟩ := h2.run_at
  refine ⟨h2.1, max f1 f2 + 1, ?_⟩
  simp only [run]
  rw [hf1 (max f1 f2) (Nat.le_max_left f1 f2)]
  simp only [Res.bindStmt]
  rw [hf2 (max f1 f2) (Nat.le_max_right f1 f2)]

theorem Evals_stmts_cons_ret {P : Program} {store : Store} {env : Env}
    {s : Stmt} {rest : List Stmt} {v : Value} {st : Store}
    (h1 : Evals P store (.stmt env s) (.ok (.retd v st))) :
    Evals P store (.stmts env (s :: rest)) (.ok (.retd v st)) := by
  obtain ⟨f1, hf1⟩ := h1.run_at
  refine ⟨trivial, f1 + 1, ?_⟩
  simp only [run]
  rw [hf1 f1 (Nat.le_refl f1)]
  rfl

theorem Evals_stmts_cons_err {P : Program} {store : Store} {env : Env}
    {s : Stmt} {rest : List Stmt} {e : RuntimeError}
    (h1 : Evals P store (.stmt env s) (.err e)) :
    Evals P store (.stmts env (s :: rest)) (.err e) := by
  obtain ⟨f1, hf1⟩ := h1.run_at
  refine ⟨trivial, f1 + 1, ?_⟩
  simp only [run]
  rw [hf1 f1 (Nat.le_refl f1)]
  rfl

/-- The spec's "iterative equivalent" of `sum_recursive`: an iterative
left-to-right summation of the first `n` array elements. -/
def iterSum (l : List Int) (n : Nat) : Int :=
  (l.take n).foldl (· + ·) 0

theorem iterSum_zero (l : List Int) : iterSum l 0 = 0 := rfl

theorem iterSum_succ (l : List Int) (n : Nat) (h : n < l.length) :
    iterSum l (n + 1) = iterSum l n + l.getD n 0 := by
  unfold iterSum
  rw [List.take_succ, List.foldl_append]
  simp [List.getElem?_eq_getElem h, List.getD_eq_getElem?_getD]

/-- The activation record of a `sum_recursive(arr, n)` call: `arr` bound to the
decayed pointer, `n` to the remaining count. -/
def srEnv (L : Nat) (k : Int) : Env :=
  [("arr", .scalar (.ptr 0 L 0)), ("n", .scalar (.int k))]

theorem srEnv_arr (L : Nat) (k : Int) :
    lookupVar (srEnv L k) "arr" = some (.scalar (.ptr 0 L 0)) := rfl

theorem srEnv_n (L : Nat) (k : Int) :
    lookupVar (srEnv L k) "n" = some (.scalar (.int k)) := rfl

theorem p63_lookup : lookupFn program63 "sum_recursive" = some sum_recursive := rfl

theorem p63_bind (L : Nat) (k : Int) :
    bindParams sum_recursive.params [.ptr 0 L 0, .int k] = some (srEnv L k) := rfl

/-- The embedded `sum_recursive` agrees with the iterative summation for every
store contents and every in-range `n`. -/
theorem sum_recursive_iterSum (store : Store) :
    ∀ n : Nat, n ≤ store.length →
      Evals program63 store
        (.call "sum_recursive" [.ptr 0 store.length 0, .int n])
        (.ok (.val (.int (iterSum store n)) store)) := by
  intro n
  induction n with
  | zero =>
    intro _
    have hcond :
        Evals program63 store
          (.expr (srEnv store.length 0) (.bin .le (.ident "n") (.intLit 0)))
          (.ok (.val (.int 1) store)) := by
      simpa [applyBin] using
        Evals_bin (Evals_ident (srEnv_n store.length 0)) Evals_intLit
    have hret :
        Evals program63 store
          (.stmts (srEnv store.length 0) [.ret (.intLit 0)])
          (.ok (.retd (.int 0) store)) :=
      Evals_stmts_cons_ret (by simpa [Res.bindVal] using Evals_ret Evals_intLit)
    have hbody :
        Evals program63 store (.stmts (srEnv store.length 0) sum_recursive.body)
          (.ok (.retd (.int 0) store)) :=
      Evals_stmts_cons_ret (Evals_if_true hcond (by norm_num) hret)
    have hcall := Evals_callJob p63_lookup (p63_bind store.length 0) hbody
    simpa [Res.callWrap, iterSum_zero] using hcall
  | succ n ih =>
    intro hn
    have hlen : n < store.length := hn
    have hIH := ih (Nat.le_of_lt hlen)
    have hcond :
        Evals program63 store
          (.expr (srEnv store.length (n + 1)) (.bin .le (.ident "n") (.intLit 0)))
          (.ok (.val (.int 0) store)) := by
      simpa [applyBin, show ¬((n : Int) + 1 ≤ 0) by omega] using
        Evals_bin (Evals_ident (srEnv_n store.length (n + 1))) Evals_intLit
    have hif :
        Evals program63 store
          (.stmt (srEnv store.length (n + 1))
            (.ifS (.bin .le (.ident "n") (.intLit 0)) [.ret (.intLit 0)] []))
          (.ok (.norm (srEnv store.length (n + 1)) store)) :=
      Evals_if_false hcond Evals_stmts_nil
    have hsub0 :
        Evals program63 store
          (.expr (srEnv store.length (n + 1)) (.bin .sub (.ident "n") (.intLit 1)))
          ((applyBin .sub (.int ((n : Int) + 1)) (.int 1)).map fun v => .val v store) :=
      Evals_bin (Evals_ident (srEnv_n store.length (n + 1))) Evals_intLit
    have hsub :
        Evals program63 store
          (.expr (srEnv store.length (n + 1)) (.bin .sub (.ident "n") (.intLit 1)))
          (.ok (.val (.int n) store)) := by
      simpa [applyBin, Res.map] using hsub0
    have hidx :
        Evals program63 store
          (.expr (srEnv store.length (n + 1))
            (.index (.ident "arr") (.bin .sub (.ident "n") (.intLit 1))))
          (.ok (.val (.int (store.getD n 0)) store)) := by
      have h0 := Evals_index (Evals_ident (srEnv_arr store.length (n + 1))) hsub
      simpa [readPtr, show (0 : Int) ≤ (n : Int) by omega,
        show (n : Int) < (store.length : Int) by exact_mod_cast hlen, Res.map] using h0
    have hargs :
        Evals program63 store
          (.exprs (srEnv store.length (n + 1))
            [.ident "arr", .bin .sub (.ident "n") (.intLit 1)])
          (.ok (.vals [.ptr 0 store.length 0, .int n] store)) :=
      Evals_exprs_cons (Evals_ident (srEnv_arr store.length (n + 1)))
        (Evals_exprs_cons hsub Evals_exprs_nil)
    have hcall :
        Evals program63 store
          (.expr (srEnv store.length (n + 1))
            (.call "sum_recursive" [.ident "arr", .bin .sub (.ident "n") (.intLit 1)]))
          (.ok (.val (.int (iterSum store n)) store)) :=
      Evals_callExpr hargs hIH
    have hadd :
        Evals program63 store
          (.expr (srEnv store.length (n + 1))
            (.bin .add
              (.index (.ident "arr") (.bin .sub (.ident "n") (.intLit 1)))
              (.call "sum_recursive" [.ident "arr", .bin .sub (.ident "n") (.intLit 1)])))
          (.ok (.val (.int (store.getD n 0 + iterSum store n)) store)) := by
      simpa [applyBin] using Evals_bin hidx hcall
    have hbody :
        Evals program63 store (.stmts (srEnv store.length (n + 1)) sum_recursive.body)
          (.ok (.retd (.int (store.getD n 0 + iterSum store n)) store)) := by
      refine Evals_stmts_cons_norm hif ?_
      exact Evals_stmts_cons_ret (by simpa [Res.bindVal] using Evals_ret hadd)
    have hfin := Evals_callJob p63_lookup (p63_bind store.length (n + 1)) hbody
    have hres : iterSum store (n + 1) = store.getD n 0 + iterSum store n := by
      rw [iterSum_succ store n hlen]; ring
    simpa [Res.callWrap, hres] using hfin

/-- C5: for every array contents and every `n` with `0 ≤ n ≤ length`, the
embedded `sum_recursive(arr, n)` returns the same value as the iterative
left-to-right summation `iterSum` of the first `n` elements; in particular for
the fixture's array `[1,2,3,4]` and `n = 4` both yield `10`, the program's
exit value. -/
theorem C5_sum_recursive_matches_iterative (store : Store) (n : Nat)
    (hn : n ≤ store.length) :
    Evals program63 store
      (.call "sum_recursive" [.ptr 0 store.length 0, .int n])
      (.ok (.val (.int (iterSum store n)) store)) ∧
    iterSum [1, 2, 3, 4] 4 = 10 ∧ Computes program63 (.ok 10) :=
  ⟨sum_recursive_iterSum store n hn, by decide, ⟨trivial, 60, by decide⟩⟩

/-- Witness for C5 at the fixture's array `[1,2,3,4]` and `n = 4`. -/
theorem C5_sum_recursive_matches_iterative_witness :
    Evals program63 [1, 2, 3, 4]
      (.call "sum_recursive" [.ptr 0 (List.length [1, 2, 3, 4]) 0, .int 4])
      (.ok (.val (.int (iterSum [1, 2, 3, 4] 4)) [1, 2, 3, 4])) ∧
    iterSum [1, 2, 3, 4] 4 = 10 ∧ Computes program63 (.ok 10) :=
  C5_sum_recursive_matches_iterative [1, 2, 3, 4] 4 (by decide)

theorem natAbs_tmod (a b : Int) : (a.tmod b).natAbs = a.natAbs % b.natAbs := by
  cases a <;> cases b <;>
    simp only [Int.tmod, Int.natAbs_neg, Nat.succ_eq_add_one] <;> rfl

theorem tmod_nonpos_of_nonpos : ∀ {a : Int} (b : Int), a ≤ 0 → a.tmod b ≤ 0
  | .ofNat 0, _, _ => by simp
  | .ofNat (m + 1), _, h => (Nat.not_succ_le_zero m (Int.ofNat_le.mp h)).elim
  | .negSucc _, .ofNat _, _ => neg_nonpos_of_nonneg (Int.ofNat_nonneg _)
  | .negSucc _, .negSucc _, _ => neg_nonpos_of_nonneg (Int.ofNat_nonneg _)

/-- C6: for every pair of signed integers `a`, `b`, the engine's division and
modulo (`applyBin .div` / `applyBin .mod`) realise C semantics: for `b ≠ 0`
they produce a quotient `q` and remainder `r` with `a = q * b + r`,
`|r| < |b|`, `r` taking the sign of the dividend, and `|q| = |a| / |b|`
(truncation toward zero); for `b = 0` both produce
`RuntimeError::DivisionByZero` and no value. -/
theorem C6_division_modulo_semantics (a b : Int) :
    (b ≠ 0 → ∃ q r : Int,
      applyBin .div (.int a) (.int b) = .ok (.int q) ∧
      applyBin .mod (.int a) (.int b) = .ok (.int r) ∧
      a = q * b + r ∧
      r.natAbs < b.natAbs ∧
      (0 ≤ a → 0 ≤ r) ∧ (a ≤ 0 → r ≤ 0) ∧
      q.natAbs = a.natAbs / b.natAbs) ∧
    (b = 0 →
      applyBin .div (.int a) (.int b) = .err .divisionByZero ∧
      applyBin .mod (.int a) (.int b) = .err .divisionByZero) := by
  constructor
  · intro hb
    refine ⟨a.tdiv b, a.tmod b, ?_, ?_, ?_, ?_, ?_, ?_, ?_⟩
    · simp [applyBin, hb]
    · simp [applyBin, hb]
    · rw [Int.mul_comm]
      exact (Int.tdiv_add_tmod a b).symm
    · rw [natAbs_tmod]
      exact Nat.mod_lt _ (by omega)
    · intro ha
      exact Int.tmod_nonneg b ha
    · intro ha
      exact tmod_nonpos_of_nonpos b ha
    · exact Int.natAbs_tdiv a b
  · intro hb
    subst hb
    exact ⟨rfl, rfl⟩

/-- Witness for C6 at `a = -7`, `b = 3` (nonzero divisor) and at
`a = 5`, `b = 0` (division by zero). -/
theorem C6_division_modulo_semantics_witness :
    (∃ q r : Int,
      applyBin .div (.int (-7)) (.int 3) = .ok (.int q) ∧
      applyBin .mod (.int (-7)) (.int 3) = .ok (.int r) ∧
      (-7 : Int) = q * 3 + r ∧
      r.natAbs < (3 : Int).natAbs ∧
      (0 ≤ (-7 : Int) → 0 ≤ r) ∧ ((-7 : Int) ≤ 0 → r ≤ 0) ∧
      q.natAbs = (-7 : Int).natAbs / (3 : Int).natAbs) ∧
    (applyBin .div (.int 5) (.int 0) = .err .divisionByZero ∧
      applyBin .mod (.int 5) (.int 0) = .err .divisionByZero) :=
  ⟨(C6_division_modulo_semantics (-7) 3).1 (by decide),
   (C6_division_modulo_semantics 5 0).2 rfl⟩

theorem Evals_deref {P : Program} {store : Store} {env : Env} {a : Expr}
    {v : Value} {s : Store}
    (h : Evals P store (.expr env a) (.ok (.val v s))) :
    Evals P store (.expr env (.deref a)) ((readPtr s v).map fun c => .val c s) := by
  obtain ⟨f, hf⟩ := h.run_at
  refine ⟨Res.map_definitive (readPtr_definitive s v), f + 1, ?_⟩
  simp only [run]
  rw [hf f (Nat.le_refl f)]
  rfl

/-- C7: for an array declared with size `N`, indexing at an effective index
outside `[0, N)` (in particular at `N`, one past the end) and dereferencing a
pointer outside `[base, base + N)` yield `RuntimeError::OutOfBounds` — and any
definitive evaluation of that indexing agrees with the error, so it never
produces a value — while merely forming the one-past-the-end pointer and
comparing against it evaluates without any error. -/
theorem C7_out_of_bounds_detected (P : Program) (env : Env) (store : Store)
    (x p : String) (base N : Nat) (a i : Int)
    (hx : lookupVar env x = some (.arr base N))
    (hp : lookupVar env p = some (.scalar (.ptr base N a)))
    (hi : i < 0 ∨ (N : Int) ≤ i)
    (ha : a < base ∨ (base : Int) + N ≤ a) :
    Evals P store (.expr env (.index (.ident x) (.intLit i))) (.err .outOfBounds) ∧
    (∀ r', Evals P store (.expr env (.index (.ident x) (.intLit i))) r' →
      r' = .err .outOfBounds) ∧
    Evals P store (.expr env (.deref (.ident p))) (.err .outOfBounds) ∧
    Evals P store (.expr env (.bin .add (.ident x) (.intLit N)))
      (.ok (.val (.ptr base N ((base : Int) + N)) store)) ∧
    Evals P store
      (.expr env (.bin .lt (.ident x) (.bin .add (.ident x) (.intLit N))))
      (.ok (.val (.int (if 0 < N then 1 else 0)) store)) := by
  have h1 :
      Evals P store (.expr env (.index (.ident x) (.intLit i)))
        (.err .outOfBounds) := by
    have h0 :
        Evals P store (.expr env (.index (.ident x) (.intLit i)))
          ((readPtr store (.ptr base N ((base : Int) + i))).map fun v => .val v store) :=
      Evals_index (Evals_ident_arr hx) Evals_intLit
    simpa [readPtr,
      show ¬((0 : Int) ≤ i ∧ i < (N : Int)) by omega, Res.map] using h0
  have h3 :
      Evals P store (.expr env (.deref (.ident p))) (.err .outOfBounds) := by
    have h0 :
        Evals P store (.expr env (.deref (.ident p)))
          ((readPtr store (.ptr base N a)).map fun c => .val c store) :=
      Evals_deref (Evals_ident hp)
    simpa [readPtr,
      show ¬((base : Int) ≤ a ∧ a < (base : Int) + N) by omega,
      Res.map] using h0
  have h4 :
      Evals P store (.expr env (.bin .add (.ident x) (.intLit N)))
        (.ok (.val (.ptr base N ((base : Int) + N)) store)) := by
    have h0 :
        Evals P store (.expr env (.bin .add (.ident x) (.intLit N)))
          ((applyBin .add (.ptr base N base) (.int N)).map fun v => .val v store) :=
      Evals_bin (Evals_ident_arr hx) Evals_intLit
    simpa [applyBin, Res.map] using h0
  have h5 :
      Evals P store
        (.expr env (.bin .lt (.ident x) (.bin .add (.ident x) (.intLit N))))
        (.ok (.val (.int (if 0 < N then 1 else 0)) store)) := by
    have h0 :
        Evals P store
          (.expr env (.bin .lt (.ident x) (.bin .add (.ident x) (.intLit N))))
          ((applyBin .lt (.ptr base N base) (.ptr base N ((base : Int) + N))).map
            fun v => .val v store) :=
      Evals_bin (Evals_ident_arr hx) h4
    by_cases hN : 0 < N
    · simpa [applyBin, Res.map, show (base : Int) < (base : Int) + N by omega,
        hN] using h0
    · simpa [applyBin, Res.map, show ¬((base : Int) < (base : Int) + N) by omega,
        hN] using h0
  exact ⟨h1, fun r' hr' => (Evals_unique h1 hr').symm, h3, h4, h5⟩

/-- Witness for C7: a two-element array indexed at 2 (one past the end), a
pointer parked at address 5 outside `[0, 2)`, in store `[7, 9]`. -/
theorem C7_out_of_bounds_detected_witness :
    Evals [] [7, 9]
      (.expr [("a", .arr 0 2), ("p", .scalar (.ptr 0 2 5))]
        (.index (.ident "a") (.intLit 2)))
      (.err .outOfBounds) ∧
    (∀ r', Evals [] [7, 9]
      (.expr [("a", .arr 0 2), ("p", .scalar (.ptr 0 2 5))]
        (.index (.ident "a") (.intLit 2))) r' →
      r' = .err .outOfBounds) ∧
    Evals [] [7, 9]
      (.expr [("a", .arr 0 2), ("p", .scalar (.ptr 0 2 5))]
        (.deref (.ident "p")))
      (.err .outOfBounds) ∧
    Evals [] [7, 9]
      (.expr [("a", .arr 0 2), ("p", .scalar (.ptr 0 2 5))]
        (.bin .add (.ident "a") (.intLit 2)))
      (.ok (.val (.ptr 0 2 ((0 : Int) + 2)) [7, 9])) ∧
    Evals [] [7, 9]
      (.expr [("a", .arr 0 2), ("p", .scalar (.ptr 0 2 5))]
        (.bin .lt (.ident "a") (.bin .add (.ident "a") (.intLit 2))))
      (.ok (.val (.int (if 0 < 2 then 1 else 0)) [7, 9])) :=
  C7_out_of_bounds_detected [] [("a", .arr 0 2), ("p", .scalar (.ptr 0 2 5))]
    [7, 9] "a" "p" 0 2 5 2 rfl rfl (by omega) (by omega)

/-- Modelled from the spec: the front end of the pipeline — lexer, parser and
semantic checker — is absent from the visible material; per the spec it is a
pure function from source text to either a checked program or a structured
front-end diagnostic (`LexError`/`ParseError`/`SemanticError`, abstracted here
as an arbitrary error type `ε`). -/
def FrontEnd (ε : Type) : Type := String → Except ε Program

/-- The full pipeline `run(check(parse(tokenize(src))))` relates a source text
to its observable outcome: the front-end diagnostic if the front end rejects
it, otherwise a definitive evaluation result of the checked program. -/
def PipelineComputes {ε : Type} (fe : FrontEnd ε) (src : String)
    (out : Except ε (Res Int)) : Prop :=
  match fe src with
  | .error e => out = .error e
  | .ok P => ∃ r, out = .ok r ∧ Computes P r

/-- C8: execution is deterministic — for every front end and every source
text, any two observable outcomes of the full pipeline coincide: the same
integer result, or the identical structured error.  In particular re-running
an erroring program yields the same error. -/
theorem C8_pipeline_deterministic {ε : Type} (fe : FrontEnd ε) (src : String)
    (o o' : Except ε (Res Int))
    (h : PipelineComputes fe src o) (h' : PipelineComputes fe src o') :
    o = o' := by
  unfold PipelineComputes at h h'
  cases hfe : fe src with
  | error e =>
    rw [hfe] at h h'
    rw [h, h']
  | ok P =>
    rw [hfe] at h h'
    obtain ⟨r, ho, hr⟩ := h
    obtain ⟨r', ho', hr'⟩ := h'
    rw [ho, ho', Computes_unique hr hr']

/-- Witness for C8: the trivial front end that accepts every source as
`program36`; both runs observe the result `16`. -/
theorem C8_pipeline_deterministic_witness :
    (Except.ok (Res.ok 16) : Except Unit (Res Int)) = .ok (.ok 16) :=
  C8_pipeline_deterministic (fun _ => .ok program36) "" _ _
    ⟨.ok 16, rfl, trivial, 40, by decide⟩
    ⟨.ok 16, rfl, trivial, 40, by decide⟩

/-- The activation record of a `power(base, exp)` call. -/
def pwEnv (b e : Int) : Env :=
  [("base", .scalar (.int b)), ("exp", .scalar (.int e))]

theorem pwEnv_base (b e : Int) :
    lookupVar (pwEnv b e) "base" = some (.scalar (.int b)) := rfl

theorem pwEnv_exp (b e : Int) :
    lookupVar (pwEnv b e) "exp" = some (.scalar (.int e)) := rfl

theorem p36_lookup : lookupFn program36 "power" = some power := rfl

theorem p36_bind (b e : Int) :
    bindParams power.params [.int b, .int e] = some (pwEnv b e) := rfl

/-- For every non-negative exponent, the embedded `power` computes the
mathematical power. -/
theorem power_evals (b : Int) (store : Store) :
    ∀ e : Nat,
      Evals program36 store (.call "power" [.int b, .int e])
        (.ok (.val (.int (b ^ e)) store)) := by
  intro e
  induction e with
  | zero =>
    have hcond :
        Evals program36 store
          (.expr (pwEnv b 0) (.bin .eq (.ident "exp") (.intLit 0)))
          ((applyBin .eq (.int 0) (.int 0)).map fun v => .val v store) :=
      Evals_bin (Evals_ident (pwEnv_exp b 0)) Evals_intLit
    have hcond1 :
        Evals program36 store
          (.expr (pwEnv b 0) (.bin .eq (.ident "exp") (.intLit 0)))
          (.ok (.val (.int 1) store)) := by
      simpa [applyBin, Res.map] using hcond
    have hret :
        Evals program36 store (.stmts (pwEnv b 0) [.ret (.intLit 1)])
          (.ok (.retd (.int 1) store)) :=
      Evals_stmts_cons_ret (by simpa [Res.bindVal] using Evals_ret Evals_intLit)
    have hbody :
        Evals program36 store (.stmts (pwEnv b 0) power.body)
          (.ok (.retd (.int 1) store)) :=
      Evals_stmts_cons_ret (Evals_if_true hcond1 (by norm_num) hret)
    have hcall := Evals_callJob p36_lookup (p36_bind b 0) hbody
    simpa [Res.callWrap] using hcall
  | succ e ih =>
    have hcond :
        Evals program36 store
          (.expr (pwEnv b (e + 1)) (.bin .eq (.ident "exp") (.intLit 0)))
          ((applyBin .eq (.int ((e : Int) + 1)) (.int 0)).map fun v => .val v store) :=
      Evals_bin (Evals_ident (pwEnv_exp b (e + 1))) Evals_intLit
    have hcond1 :
        Evals program36 store
          (.expr (pwEnv b (e + 1)) (.bin .eq (.ident "exp") (.intLit 0)))
          (.ok (.val (.int 0) store)) := by
      simpa [applyBin, Res.map, show ¬((e : Int) + 1 = 0) by omega] using hcond
    have hif :
        Evals program36 store
          (.stmt (pwEnv b (e + 1))
            (.ifS (.bin .eq (.ident "exp") (.intLit 0)) [.ret (.intLit 1)] []))
          (.ok (.norm (pwEnv b (e + 1)) store)) :=
      Evals_if_false hcond1 Evals_stmts_nil
    have hsub0 :
        Evals program36 store
          (.expr (pwEnv b (e + 1)) (.bin .sub (.ident "exp") (.intLit 1)))
          ((applyBin .sub (.int ((e : Int) + 1)) (.int 1)).map fun v => .val v store) :=
      Evals_bin (Evals_ident (pwEnv_exp b (e + 1))) Evals_intLit
    have hsub :
        Evals program36 store
          (.expr (pwEnv b (e + 1)) (.bin .sub (.ident "exp") (.intLit 1)))
          (.ok (.val (.int e) store)) := by
      simpa [applyBin, Res.map] using hsub0
    have hargs :
        Evals program36 store
          (.exprs (pwEnv b (e + 1)) [.ident "base", .bin .sub (.ident "exp") (.intLit 1)])
          (.ok (.vals [.int b, .int e] store)) :=
      Evals_exprs_cons (Evals_ident (pwEnv_base b (e + 1)))
        (Evals_exprs_cons hsub Evals_exprs_nil)
    have hcall :
        Evals program36 store
          (.expr (pwEnv b (e + 1))
            (.call "power" [.ident "base", .bin .sub (.ident "exp") (.intLit 1)]))
          (.ok (.val (.int (b ^ e)) store)) :=
      Evals_callExpr hargs ih
    have hmul0 :
        Evals program36 store
          (.expr (pwEnv b (e + 1))
            (.bin .mul (.ident "base")
              (.call "power" [.ident "base", .bin .sub (.ident "exp") (.intLit 1)])))
          ((applyBin .mul (.int b) (.int (b ^ e))).map fun v => .val v store) :=
      Evals_bin (Evals_ident (pwEnv_base b (e + 1))) hcall
    have hmul :
        Evals program36 store
          (.expr (pwEnv b (e + 1))
            (.bin .mul (.ident "base")
              (.call "power" [.ident "base", .bin .sub (.ident "exp") (.intLit 1)])))
          (.ok (.val (.int (b ^ (e + 1))) store)) := by
      have : b * b ^ e = b ^ (e + 1) := by ring
      simpa [applyBin, Res.map, this] using hmul0
    have hbody :
        Evals program36 store (.stmts (pwEnv b (e + 1)) power.body)
          (.ok (.retd (.int (b ^ (e + 1))) store)) := by
      refine Evals_stmts_cons_norm hif ?_
      exact Evals_stmts_cons_ret (by simpa [Res.bindVal] using Evals_ret hmul)
    have hfin := Evals_callJob p36_lookup (p36_bind b (e + 1)) hbody
    simpa [Res.callWrap] using hfin

theorem Res.bindVal_eq_ok {r : Res JOut} {g : Value → Store → Res JOut}
    {j : JOut} (h : r.bindVal g = .ok j) :
    ∃ v s, r = .ok (.val v s) ∧ g v s = .ok j := by
  cases r with
  | ok j0 =>
    cases j0 with
    | val v s => exact ⟨v, s, rfl, h⟩
    | vals vs s => exact absurd h (by simp [Res.bindVal])
    | loc l s => exact absurd h (by simp [Res.bindVal])
    | norm env s => exact absurd h (by simp [Res.bindVal])
    | retd v s => exact absurd h (by simp [Res.bindVal])
  | err e => exact absurd h (by simp [Res.bindVal])
  | stuck => exact absurd h (by simp [Res.bindVal])
  | oof => exact absurd h (by simp [Res.bindVal])

theorem Res.bindVals_eq_ok {r : Res JOut} {g : List Value → Store → Res JOut}
    {j : JOut} (h : r.bindVals g = .ok j) :
    ∃ vs s, r = .ok (.vals vs s) ∧ g vs s = .ok j := by
  cases r with
  | ok j0 =>
    cases j0 with
    | val v s => exact absurd h (by simp [Res.bindVals])
    | vals vs s => exact ⟨vs, s, rfl, h⟩
    | loc l s => exact absurd h (by simp [Res.bindVals])
    | norm env s => exact absurd h (by simp [Res.bindVals])
    | retd v s => exact absurd h (by simp [Res.bindVals])
  | err e => exact absurd h (by simp [Res.bindVals])
  | stuck => exact absurd h (by simp [Res.bindVals])
  | oof => exact absurd h (by simp [Res.bindVals])

theorem Res.bindStmt_eq_ok {r : Res JOut} {g : Env → Store → Res JOut}
    {j : JOut} (h : r.bindStmt g = .ok j) :
    (∃ env s, r = .ok (.norm env s) ∧ g env s = .ok j) ∨
    (∃ v s, r = .ok (.retd v s) ∧ j = .retd v s) := by
  cases r with
  | ok j0 =>
    cases j0 with
    | val v s => exact absurd h (by simp [Res.bindStmt])
    | vals vs s => exact absurd h (by simp [Res.bindStmt])
    | loc l s => exact absurd h (by simp [Res.bindStmt])
    | norm env s => exact Or.inl ⟨env, s, rfl, h⟩
    | retd v s =>
      refine Or.inr ⟨v, s, rfl, ?_⟩
      have := h.symm
      simpa [Res.bindStmt] using this
  | err e => exact absurd h (by simp [Res.bindStmt])
  | stuck => exact absurd h (by simp [Res.bindStmt])
  | oof => exact absurd h (by simp [Res.bindStmt])

theorem Res.callWrap_eq_ok {r : Res JOut} {j : JOut} (h : r.callWrap = .ok j) :
    ∃ v s, r = .ok (.retd v s) ∧ j = .val v s := by
  cases r with
  | ok j0 =>
    cases j0 with
    | val v s => exact absurd h (by simp [Res.callWrap])
    | vals vs s => exact absurd h (by simp [Res.callWrap])
    | loc l s => exact absurd h (by simp [Res.callWrap])
    | norm env s => exact absurd h (by simp [Res.callWrap])
    | retd v s =>
      refine ⟨v, s, rfl, ?_⟩
      have := h.symm
      simpa [Res.callWrap] using this
  | err e => exact absurd h (by simp [Res.callWrap])
  | stuck => exact absurd h (by simp [Res.callWrap])
  | oof => exact absurd h (by simp [Res.callWrap])

theorem Evals_of_run {P : Program} {store : Store} {job : Job} {X : JOut}
    {f : Nat} (h : run P f store job = .ok X) : Evals P store job (.ok X) :=
  ⟨trivial, f, h⟩

/-- For every negative exponent, no amount of fuel makes the embedded `power`
produce a value: the recursion `power(base, exp - 1)` never reaches the base
case. -/
theorem power_neg_no_value (b : Int) :
    ∀ f : Nat, ∀ e : Int, e < 0 → ∀ (store : Store) (jo : JOut),
      run program36 f store (.call "power" [.int b, .int e]) ≠ .ok jo := by
  intro f
  induction f using Nat.strong_induction_on with
  | _ f IH =>
    intro e he store jo h
    have hcond1 :
        Evals program36 store
          (.expr (pwEnv b e) (.bin .eq (.ident "exp") (.intLit 0)))
          (.ok (.val (.int 0) store)) := by
      have h0 :
          Evals program36 store
            (.expr (pwEnv b e) (.bin .eq (.ident "exp") (.intLit 0)))
            ((applyBin .eq (.int e) (.int 0)).map fun v => .val v store) :=
        Evals_bin (Evals_ident (pwEnv_exp b e)) Evals_intLit
      simpa [applyBin, Res.map, show ¬(e = 0) by omega] using h0
    have hif :
        Evals program36 store
          (.stmt (pwEnv b e)
            (.ifS (.bin .eq (.ident "exp") (.intLit 0)) [.ret (.intLit 1)] []))
          (.ok (.norm (pwEnv b e) store)) :=
      Evals_if_false hcond1 Evals_stmts_nil
    have hsub :
        Evals program36 store
          (.expr (pwEnv b e) (.bin .sub (.ident "exp") (.intLit 1)))
          (.ok (.val (.int (e - 1)) store)) := by
      have h0 :
          Evals program36 store
            (.expr (pwEnv b e) (.bin .sub (.ident "exp") (.intLit 1)))
            ((applyBin .sub (.int e) (.int 1)).map fun v => .val v store) :=
        Evals_bin (Evals_ident (pwEnv_exp b e)) Evals_intLit
      simpa [applyBin, Res.map] using h0
    have hargs :
        Evals program36 store
          (.exprs (pwEnv b e) [.ident "base", .bin .sub (.ident "exp") (.intLit 1)])
          (.ok (.vals [.int b, .int (e - 1)] store)) :=
      Evals_exprs_cons (Evals_ident (pwEnv_base b e))
        (Evals_exprs_cons hsub Evals_exprs_nil)
    have hbase :
        Evals program36 store (.expr (pwEnv b e) (.ident "base"))
          (.ok (.val (.int b) store)) :=
      Evals_ident (pwEnv_base b e)
    cases f with
    | zero => exact absurd h (by simp [run])
    | succ f0 =>
      simp only [run, p36_lookup, p36_bind] at h
      obtain ⟨v, s, hs, hj⟩ := Res.callWrap_eq_ok h
      cases f0 with
      | zero => exact absurd hs (by simp [run])
      | succ f1 =>
        simp only [run, power] at hs
        rcases Res.bindStmt_eq_ok hs with ⟨env1, st1, h1, h2⟩ | ⟨v', s', h1, h2⟩
        · have huniq := Evals_unique (Evals_of_run h1) hif
          obtain ⟨henv, hst⟩ : env1 = pwEnv b e ∧ st1 = store := by
            simpa using huniq
          rw [henv, hst] at h2
          cases f1 with
          | zero => exact absurd h2 (by simp [run])
          | succ f2 =>
            simp only [run] at h2
            rcases Res.bindStmt_eq_ok h2 with ⟨env2, st2, h3, h4⟩ | ⟨v2, s2, h3, h4⟩
            · cases f2 with
              | zero => exact absurd h3 (by simp [run])
              | succ f3 =>
                simp only [run] at h3
                obtain ⟨vv, ss, hm, hcontra⟩ := Res.bindVal_eq_ok h3
                exact absurd hcontra (by simp)
            · cases f2 with
              | zero => exact absurd h3 (by simp [run])
              | succ f3 =>
                simp only [run] at h3
                obtain ⟨vm, sm, hm, _⟩ := Res.bindVal_eq_ok h3
                cases f3 with
                | zero => exact absurd hm (by simp [run])
                | succ f4 =>
                  simp only [run] at hm
                  obtain ⟨v1, s1, hb1, hrest⟩ := Res.bindVal_eq_ok hm
                  have huniq2 := Evals_unique (Evals_of_run hb1) hbase
                  obtain ⟨hv1, hs1⟩ : v1 = .int b ∧ s1 = store := by
                    simpa using huniq2
                  rw [hv1, hs1] at hrest
                  obtain ⟨v2', s2', hc, _⟩ := Res.bindVal_eq_ok hrest
                  cases f4 with
                  | zero => exact absurd hc (by simp [run])
                  | succ f5 =>
                    simp only [run] at hc
                    obtain ⟨vs, s'', hargs', hcall'⟩ := Res.bindVals_eq_ok hc
                    have huniq3 := Evals_unique (Evals_of_run hargs') hargs
                    obtain ⟨hvs, hs''⟩ :
                        vs = [.int b, .int (e - 1)] ∧ s'' = store := by
                      simpa using huniq3
                    rw [hvs, hs''] at hcall'
                    exact IH f5 (by omega) (e - 1) (by omega) store _ hcall'
        · have huniq := Evals_unique (Evals_of_run h1) hif
          exact absurd huniq (by simp)

/-- C9: the embedded `power` terminates exactly on non-negative exponents —
for every base `b` and `e ≥ 0` it evaluates to `b ^ e`, while for every
`e < 0` no amount of fuel produces a value (the recursion never reaches the
base case). -/
theorem C9_power_terminates_iff_nonneg_exponent (b : Int) (store : Store) :
    (∀ e : Int, 0 ≤ e →
      Evals program36 store (.call "power" [.int b, .int e])
        (.ok (.val (.int (b ^ e.toNat)) store))) ∧
    (∀ e : Int, e < 0 → ∀ (f : Nat) (jo : JOut),
      run program36 f store (.call "power" [.int b, .int e]) ≠ .ok jo) := by
  constructor
  · intro e he
    have h := power_evals b store e.toNat
    rwa [Int.toNat_of_nonneg he] at h
  · exact fun e he f jo => power_neg_no_value b f e he store jo

/-- Witness for C9 at base 2: exponent 4 terminates with `2 ^ 4`, and
exponent `-1` yields no value at fuel 5. -/
theorem C9_power_terminates_iff_nonneg_exponent_witness :
    Evals program36 [] (.call "power" [.int 2, .int 4])
      (.ok (.val (.int (2 ^ (4 : Int).toNat)) [])) ∧
    run program36 5 [] (.call "power" [.int 2, .int (-1)]) ≠
      .ok (.val (.int 0) []) :=
  ⟨(C9_power_terminates_iff_nonneg_exponent 2 []).1 4 (by decide),
   (C9_power_terminates_iff_nonneg_exponent 2 []).2 (-1) (by decide) 5
     (.val (.int 0) [])⟩

/-- With truncating division, the midpoint `(l + r) / 2` lies between `l`
and `r` whenever `l ≤ r`. -/
theorem tdiv_two_between {l r : Int} (h : l ≤ r) :
    l ≤ (l + r).tdiv 2 ∧ (l + r).tdiv 2 ≤ r := by
  rcases le_or_lt 0 (l + r) with h0 | h0
  · rw [Int.tdiv_eq_ediv h0 (by norm_num)]
    omega
  · have h1 : (-(l + r)).tdiv 2 = -((l + r).tdiv 2) := Int.neg_tdiv _ _
    rw [Int.tdiv_eq_ediv (by omega) (by norm_num)] at h1
    omega

/-- The activation record of a `binary_search_recursive(arr,left,right,key)`
call, before `mid` is declared. -/
def bsEnv0 (a : Value) (l r k : Int) : Env :=
  [("arr", .scalar a), ("left", .scalar (.int l)),
   ("right", .scalar (.int r)), ("key", .scalar (.int k))]

/-- The activation record once `mid` is declared (holding `m`). -/
def bsEnvM (a : Value) (l r k m : Int) : Env :=
  ("mid", .scalar (.int m)) :: bsEnv0 a l r k

theorem bsEnvM_arr (a : Value) (l r k m : Int) :
    lookupVar (bsEnvM a l r k m) "arr" = some (.scalar a) := rfl

theorem bsEnvM_left (a : Value) (l r k m : Int) :
    lookupVar (bsEnvM a l r k m) "left" = some (.scalar (.int l)) := rfl

theorem bsEnvM_right (a : Value) (l r k m : Int) :
    lookupVar (bsEnvM a l r k m) "right" = some (.scalar (.int r)) := rfl

theorem bsEnvM_key (a : Value) (l r k m : Int) :
    lookupVar (bsEnvM a l r k m) "key" = some (.scalar (.int k)) := rfl

theorem bsEnvM_mid (a : Value) (l r k m : Int) :
    lookupVar (bsEnvM a l r k m) "mid" = some (.scalar (.int m)) := rfl

theorem bsEnvM_update (a : Value) (l r k m m' : Int) :
    updateVar (bsEnvM a l r k m) "mid" (.int m') = some (bsEnvM a l r k m') := rfl

theorem p62_lookup :
    lookupFn program62 "binary_search_recursive" = some binary_search_recursive := rfl

theorem p62_bind (a : Value) (l r k : Int) :
    bindParams binary_search_recursive.params [a, .int l, .int r, .int k] =
      some (bsEnv0 a l r k) := rfl

/-- When `left > right`, `binary_search_recursive` returns `-1` at once,
whatever the `arr` argument is. -/
theorem bsr_base (store : Store) (a : Value) {l r : Int} (k : Int)
    (hlr : r < l) :
    Evals program62 store
      (.call "binary_search_recursive" [a, .int l, .int r, .int k])
      (.ok (.val (.int (-1)) store)) := by
  have hcond0 :
      Evals program62 store
        (.expr (bsEnvM a l r k 0) (.bin .gt (.ident "left") (.ident "right")))
        ((applyBin .gt (.int l) (.int r)).map fun v => .val v store) :=
    Evals_bin (Evals_ident (bsEnvM_left a l r k 0)) (Evals_ident (bsEnvM_right a l r k 0))
  have hcond :
      Evals program62 store
        (.expr (bsEnvM a l r k 0) (.bin .gt (.ident "left") (.ident "right")))
        (.ok (.val (.int 1) store)) := by
    simpa [applyBin, Res.map, hlr] using hcond0
  have hret :
      Evals program62 store (.stmts (bsEnvM a l r k 0) [.ret (.neg (.intLit 1))])
        (.ok (.retd (.int (-1)) store)) :=
    Evals_stmts_cons_ret (by simpa [Res.bindVal] using Evals_ret (Evals_neg Evals_intLit))
  have hif :
      Evals program62 store
        (.stmt (bsEnvM a l r k 0)
          (.ifS (.bin .gt (.ident "left") (.ident "right"))
            [.ret (.neg (.intLit 1))] []))
        (.ok (.retd (.int (-1)) store)) :=
    Evals_if_true hcond (by norm_num) hret
  have hbody :
      Evals program62 store (.stmts (bsEnv0 a l r k) binary_search_recursive.body)
        (.ok (.retd (.int (-1)) store)) :=
    Evals_stmts_cons_norm Evals_declScalar (Evals_stmts_cons_ret hif)
  have hfin := Evals_callJob p62_lookup (p62_bind a l r k) hbody
  simpa [Res.callWrap] using hfin

/-- When `left ≤ right`, executing `binary_search_recursive`'s body runs the
prefix (declare `mid`, skip the `left > right` test, assign the midpoint) and
then behaves as the three remaining statements do. -/
theorem bsr_chain (store : Store) (a : Value) {l r k m : Int}
    (hlr : ¬ r < l) (hm : (l + r).tdiv 2 = m) {R : Res JOut}
    (htail : Evals program62 store
      (.stmts (bsEnvM a l r k m)
        [ .ifS (.bin .eq (.index (.ident "arr") (.ident "mid")) (.ident "key"))
            [.ret (.ident "mid")] [],
          .ifS (.bin .gt (.index (.ident "arr") (.ident "mid")) (.ident "key"))
            [.ret (.call "binary_search_recursive"
              [.ident "arr", .ident "left",
               .bin .sub (.ident "mid") (.intLit 1), .ident "key"])] [],
          .ret (.call "binary_search_recursive"
            [.ident "arr", .bin .add (.ident "mid") (.intLit 1),
             .ident "right", .ident "key"]) ])
      R) :
    Evals program62 store
      (.call "binary_search_recursive" [a, .int l, .int r, .int k])
      R.callWrap := by
  have hcond0 :
      Evals program62 store
        (.expr (bsEnvM a l r k 0) (.bin .gt (.ident "left") (.ident "right")))
        ((applyBin .gt (.int l) (.int r)).map fun v => .val v store) :=
    Evals_bin (Evals_ident (bsEnvM_left a l r k 0)) (Evals_ident (bsEnvM_right a l r k 0))
  have hcond :
      Evals program62 store
        (.expr (bsEnvM a l r k 0) (.bin .gt (.ident "left") (.ident "right")))
        (.ok (.val (.int 0) store)) := by
    simpa [applyBin, Res.map, hlr] using hcond0
  have hif2 :
      Evals program62 store
        (.stmt (bsEnvM a l r k 0)
          (.ifS (.bin .gt (.ident "left") (.ident "right"))
            [.ret (.neg (.intLit 1))] []))
        (.ok (.norm (bsEnvM a l r k 0) store)) :=
    Evals_if_false hcond Evals_stmts_nil
  have hadd0 :
      Evals program62 store
        (.expr (bsEnvM a l r k 0) (.bin .add (.ident "left") (.ident "right")))
        ((applyBin .add (.int l) (.int r)).map fun v => .val v store) :=
    Evals_bin (Evals_ident (bsEnvM_left a l r k 0)) (Evals_ident (bsEnvM_right a l r k 0))
  have hadd :
      Evals program62 store
        (.expr (bsEnvM a l r k 0) (.bin .add (.ident "left") (.ident "right")))
        (.ok (.val (.int (l + r)) store)) := by
    simpa [applyBin, Res.map] using hadd0
  have hdiv0 :
      Evals program62 store
        (.expr (bsEnvM a l r k 0)
          (.bin .div (.bin .add (.ident "left") (.ident "right")) (.intLit 2)))
        ((applyBin .div (.int (l + r)) (.int 2)).map fun v => .val v store) :=
    Evals_bin hadd Evals_intLit
  have hdiv :
      Evals program62 store
        (.expr (bsEnvM a l r k 0)
          (.bin .div (.bin .add (.ident "left") (.ident "right")) (.intLit 2)))
        (.ok (.val (.int m) store)) := by
    simpa [applyBin, Res.map, hm] using hdiv0
  have hassign :
      Evals program62 store
        (.stmt (bsEnvM a l r k 0)
          (.assign (.ident "mid")
            (.bin .div (.bin .add (.ident "left") (.ident "right")) (.intLit 2))))
        (.ok (.norm (bsEnvM a l r k m) store)) :=
    Evals_assign_var hdiv (bsEnvM_mid a l r k 0) (bsEnvM_update a l r k 0 m)
  have hbody :
      Evals program62 store
        (.stmts (bsEnv0 a l r k) binary_search_recursive.body) R :=
    Evals_stmts_cons_norm Evals_declScalar
      (Evals_stmts_cons_norm hif2 (Evals_stmts_cons_norm hassign htail))
  exact Evals_callJob p62_lookup (p62_bind a l r k) hbody

/-- Function `binary_search_recursive` reaches a definitive outcome — a value or an
out-of-bounds error — for every choice of integer arguments, by induction on
the interval width `right - left`. -/
theorem bsr_terminates (store : Store) (base cnt : Nat) (ad k : Int) :
    ∀ n : Nat, ∀ l r : Int, (r + 1 - l).toNat ≤ n →
      ∃ res,
        Evals program62 store
          (.call "binary_search_recursive"
            [.ptr base cnt ad, .int l, .int r, .int k]) res ∧
        ((∃ v s, res = .ok (.val v s)) ∨ res = .err .outOfBounds) := by
  intro n
  induction n with
  | zero =>
    intro l r hn
    exact ⟨_, bsr_base store (.ptr base cnt ad) k (by omega), Or.inl ⟨_, _, rfl⟩⟩
  | succ n ih =>
    intro l r hn
    by_cases hlr : r < l
    · exact ⟨_, bsr_base store (.ptr base cnt ad) k hlr, Or.inl ⟨_, _, rfl⟩⟩
    · obtain ⟨m, hm⟩ : ∃ m, (l + r).tdiv 2 = m := ⟨_, rfl⟩
      obtain ⟨hlm, hmr⟩ : l ≤ m ∧ m ≤ r := hm ▸ tdiv_two_between (by omega)
      have hidx0 :
          Evals program62 store
            (.expr (bsEnvM (.ptr base cnt ad) l r k m)
              (.index (.ident "arr") (.ident "mid")))
            ((readPtr store (.ptr base cnt (ad + m))).map fun v => .val v store) :=
        Evals_index (Evals_ident (bsEnvM_arr (.ptr base cnt ad) l r k m))
          (Evals_ident (bsEnvM_mid (.ptr base cnt ad) l r k m))
      by_cases hbd : (base : Int) ≤ ad + m ∧ ad + m < (base : Int) + cnt
      · obtain ⟨c, hc⟩ : ∃ c, store.getD (ad + m).toNat 0 = c := ⟨_, rfl⟩
        have hread : readPtr store (.ptr base cnt (ad + m)) = .ok (.int c) := by
          rw [← hc]
          simp only [readPtr]
          rw [if_pos hbd]
        have hidx :
            Evals program62 store
              (.expr (bsEnvM (.ptr base cnt ad) l r k m)
                (.index (.ident "arr") (.ident "mid")))
              (.ok (.val (.int c) store)) := by
          simpa [hread, Res.map] using hidx0
        have hc4raw :
            Evals program62 store
              (.expr (bsEnvM (.ptr base cnt ad) l r k m)
                (.bin .eq (.index (.ident "arr") (.ident "mid")) (.ident "key")))
              ((applyBin .eq (.int c) (.int k)).map fun v => .val v store) :=
          Evals_bin hidx (Evals_ident (bsEnvM_key (.ptr base cnt ad) l r k m))
        by_cases hck : c = k
        · have hc4 :
              Evals program62 store
                (.expr (bsEnvM (.ptr base cnt ad) l r k m)
                  (.bin .eq (.index (.ident "arr") (.ident "mid")) (.ident "key")))
                (.ok (.val (.int 1) store)) := by
            simpa [applyBin, Res.map, hck] using hc4raw
          have hretmid :
              Evals program62 store
                (.stmts (bsEnvM (.ptr base cnt ad) l r k m) [.ret (.ident "mid")])
                (.ok (.retd (.int m) store)) :=
            Evals_stmts_cons_ret (by
              simpa [Res.bindVal] using
                Evals_ret (Evals_ident (bsEnvM_mid (.ptr base cnt ad) l r k m)))
          have htail :
              Evals program62 store
                (.stmts (bsEnvM (.ptr base cnt ad) l r k m)
                  [ .ifS (.bin .eq (.index (.ident "arr") (.ident "mid")) (.ident "key"))
            [.ret (.ident "mid")] [],
          .ifS (.bin .gt (.index (.ident "arr") (.ident "mid")) (.ident "key"))
            [.ret (.call "binary_search_recursive"
              [.ident "arr", .ident "left",
               .bin .sub (.ident "mid") (.intLit 1), .ident "key"])] [],
          .ret (.call "binary_search_recursive"
            [.ident "arr", .bin .add (.ident "mid") (.intLit 1),
             .ident "right", .ident "key"]) ])
                (.ok (.retd (.int m) store)) :=
            Evals_stmts_cons_ret (Evals_if_true hc4 (by norm_num) hretmid)
          have hfin := bsr_chain store (.ptr base cnt ad) hlr hm htail
          exact ⟨.ok (.val (.int m) store),
            by simpa [Res.callWrap] using hfin, Or.inl ⟨_, _, rfl⟩⟩
        · have hc4f :
              Evals program62 store
                (.expr (bsEnvM (.ptr base cnt ad) l r k m)
                  (.bin .eq (.index (.ident "arr") (.ident "mid")) (.ident "key")))
                (.ok (.val (.int 0) store)) := by
            simpa [applyBin, Res.map, hck] using hc4raw
          have hif4f :
              Evals program62 store
                (.stmt (bsEnvM (.ptr base cnt ad) l r k m)
                  (.ifS (.bin .eq (.index (.ident "arr") (.ident "mid")) (.ident "key"))
                    [.ret (.ident "mid")] []))
                (.ok (.norm (bsEnvM (.ptr base cnt ad) l r k m) store)) :=
            Evals_if_false hc4f Evals_stmts_nil
          have hc5raw :
              Evals program62 store
                (.expr (bsEnvM (.ptr base cnt ad) l r k m)
                  (.bin .gt (.index (.ident "arr") (.ident "mid")) (.ident "key")))
                ((applyBin .gt (.int c) (.int k)).map fun v => .val v store) :=
            Evals_bin hidx (Evals_ident (bsEnvM_key (.ptr base cnt ad) l r k m))
          by_cases hkc : k < c
          · have hc5 :
                Evals program62 store
                  (.expr (bsEnvM (.ptr base cnt ad) l r k m)
                    (.bin .gt (.index (.ident "arr") (.ident "mid")) (.ident "key")))
                  (.ok (.val (.int 1) store)) := by
              simpa [applyBin, Res.map, hkc] using hc5raw
            have hsubraw :
                Evals program62 store
                  (.expr (bsEnvM (.ptr base cnt ad) l r k m)
                    (.bin .sub (.ident "mid") (.intLit 1)))
                  ((applyBin .sub (.int m) (.int 1)).map fun v => .val v store) :=
              Evals_bin (Evals_ident (bsEnvM_mid (.ptr base cnt ad) l r k m)) Evals_intLit
            have hsub :
                Evals program62 store
                  (.expr (bsEnvM (.ptr base cnt ad) l r k m)
                    (.bin .sub (.ident "mid") (.intLit 1)))
                  (.ok (.val (.int (m - 1)) store)) := by
              simpa [applyBin, Res.map] using hsubraw
            have hargs :
                Evals program62 store
                  (.exprs (bsEnvM (.ptr base cnt ad) l r k m)
                    [.ident "arr", .ident "left",
                     .bin .sub (.ident "mid") (.intLit 1), .ident "key"])
                  (.ok (.vals [.ptr base cnt ad, .int l, .int (m - 1), .int k] store)) :=
              Evals_exprs_cons (Evals_ident (bsEnvM_arr (.ptr base cnt ad) l r k m))
                (Evals_exprs_cons (Evals_ident (bsEnvM_left (.ptr base cnt ad) l r k m))
                  (Evals_exprs_cons hsub
                    (Evals_exprs_cons (Evals_ident (bsEnvM_key (.ptr base cnt ad) l r k m))
                      Evals_exprs_nil)))
            obtain ⟨res2, hres2, hshape⟩ := ih l (m - 1) (by omega)
            have hcallE :
                Evals program62 store
                  (.expr (bsEnvM (.ptr base cnt ad) l r k m)
                    (.call "binary_search_recursive"
                      [.ident "arr", .ident "left",
                       .bin .sub (.ident "mid") (.intLit 1), .ident "key"]))
                  res2 :=
              Evals_callExpr hargs hres2
            have hret := Evals_ret hcallE
            rcases hshape with ⟨v, s, hv⟩ | hv
            · have hret2 :
                  Evals program62 store
                    (.stmt (bsEnvM (.ptr base cnt ad) l r k m)
                      (.ret (.call "binary_search_recursive"
                        [.ident "arr", .ident "left",
                         .bin .sub (.ident "mid") (.intLit 1), .ident "key"])))
                    (.ok (.retd v s)) := by
                simpa [hv, Res.bindVal] using hret
              have htail :
                  Evals program62 store
                    (.stmts (bsEnvM (.ptr base cnt ad) l r k m)
                      [ .ifS (.bin .eq (.index (.ident "arr") (.ident "mid")) (.ident "key"))
            [.ret (.ident "mid")] [],
          .ifS (.bin .gt (.index (.ident "arr") (.ident "mid")) (.ident "key"))
            [.ret (.call "binary_search_recursive"
              [.ident "arr", .ident "left",
               .bin .sub (.ident "mid") (.intLit 1), .ident "key"])] [],
          .ret (.call "binary_search_recursive"
            [.ident "arr", .bin .add (.ident "mid") (.intLit 1),
             .ident "right", .ident "key"]) ])
                    (.ok (.retd v s)) :=
                Evals_stmts_cons_norm hif4f
                  (Evals_stmts_cons_ret
                    (Evals_if_true hc5 (by norm_num) (Evals_stmts_cons_ret hret2)))
              have hfin := bsr_chain store (.ptr base cnt ad) hlr hm htail
              exact ⟨.ok (.val v s), by simpa [Res.callWrap] using hfin,
                Or.inl ⟨_, _, rfl⟩⟩
            · have hret2 :
                  Evals program62 store
                    (.stmt (bsEnvM (.ptr base cnt ad) l r k m)
                      (.ret (.call "binary_search_recursive"
                        [.ident "arr", .ident "left",
                         .bin .sub (.ident "mid") (.intLit 1), .ident "key"])))
                    (.err .outOfBounds) := by
                simpa [hv, Res.bindVal] using hret
              have htail :
                  Evals program62 store
                    (.stmts (bsEnvM (.ptr base cnt ad) l r k m)
                      [ .ifS (.bin .eq (.index (.ident "arr") (.ident "mid")) (.ident "key"))
            [.ret (.ident "mid")] [],
          .ifS (.bin .gt (.index (.ident "arr") (.ident "mid")) (.ident "key"))
            [.ret (.call "binary_search_recursive"
              [.ident "arr", .ident "left",
               .bin .sub (.ident "mid") (.intLit 1), .ident "key"])] [],
          .ret (.call "binary_search_recursive"
            [.ident "arr", .bin .add (.ident "mid") (.intLit 1),
             .ident "right", .ident "key"]) ])
                    (.err .outOfBounds) :=
                Evals_stmts_cons_norm hif4f
                  (Evals_stmts_cons_err
                    (Evals_if_true hc5 (by norm_num) (Evals_stmts_cons_err hret2)))
              have hfin := bsr_chain store (.ptr base cnt ad) hlr hm htail
              exact ⟨.err .outOfBounds, by simpa [Res.callWrap] using hfin, Or.inr rfl⟩
          · have hc5f :
                Evals program62 store
                  (.expr (bsEnvM (.ptr base cnt ad) l r k m)
                    (.bin .gt (.index (.ident "arr") (.ident "mid")) (.ident "key")))
                  (.ok (.val (.int 0) store)) := by
              simpa [applyBin, Res.map, hkc] using hc5raw
            have hif5f :
                Evals program62 store
                  (.stmt (bsEnvM (.ptr base cnt ad) l r k m)
                    (.ifS (.bin .gt (.index (.ident "arr") (.ident "mid")) (.ident "key"))
                      [.ret (.call "binary_search_recursive"
                        [.ident "arr", .ident "left",
                         .bin .sub (.ident "mid") (.intLit 1), .ident "key"])] []))
                  (.ok (.norm (bsEnvM (.ptr base cnt ad) l r k m) store)) :=
              Evals_if_false hc5f Evals_stmts_nil
            have haddraw :
                Evals program62 store
                  (.expr (bsEnvM (.ptr base cnt ad) l r k m)
                    (.bin .add (.ident "mid") (.intLit 1)))
                  ((applyBin .add (.int m) (.int 1)).map fun v => .val v store) :=
              Evals_bin (Evals_ident (bsEnvM_mid (.ptr base cnt ad) l r k m)) Evals_intLit
            have hadd1 :
                Evals program62 store
                  (.expr (bsEnvM (.ptr base cnt ad) l r k m)
                    (.bin .add (.ident "mid") (.intLit 1)))
                  (.ok (.val (.int (m + 1)) store)) := by
              simpa [applyBin, Res.map] using haddraw
            have hargs :
                Evals program62 store
                  (.exprs (bsEnvM (.ptr base cnt ad) l r k m)
                    [.ident "arr", .bin .add (.ident "mid") (.intLit 1),
                     .ident "right", .ident "key"])
                  (.ok (.vals [.ptr base cnt ad, .int (m + 1), .int r, .int k] store)) :=
              Evals_exprs_cons (Evals_ident (bsEnvM_arr (.ptr base cnt ad) l r k m))
                (Evals_exprs_cons hadd1
                  (Evals_exprs_cons (Evals_ident (bsEnvM_right (.ptr base cnt ad) l r k m))
                    (Evals_exprs_cons (Evals_ident (bsEnvM_key (.ptr base cnt ad) l r k m))
                      Evals_exprs_nil)))
            obtain ⟨res2, hres2, hshape⟩ := ih (m + 1) r (by omega)
            have hcallE :
                Evals program62 store
                  (.expr (bsEnvM (.ptr base cnt ad) l r k m)
                    (.call "binary_search_recursive"
                      [.ident "arr", .bin .add (.ident "mid") (.intLit 1),
                       .ident "right", .ident "key"]))
                  res2 :=
              Evals_callExpr hargs hres2
            have hret := Evals_ret hcallE
            rcases hshape with ⟨v, s, hv⟩ | hv
            · have hret2 :
                  Evals program62 store
                    (.stmt (bsEnvM (.ptr base cnt ad) l r k m)
                      (.ret (.call "binary_search_recursive"
                        [.ident "arr", .bin .add (.ident "mid") (.intLit 1),
                         .ident "right", .ident "key"])))
                    (.ok (.retd v s)) := by
                simpa [hv, Res.bindVal] using hret
              have htail :
                  Evals program62 store
                    (.stmts (bsEnvM (.ptr base cnt ad) l r k m)
                      [ .ifS (.bin .eq (.index (.ident "arr") (.ident "mid")) (.ident "key"))
            [.ret (.ident "mid")] [],
          .ifS (.bin .gt (.index (.ident "arr") (.ident "mid")) (.ident "key"))
            [.ret (.call "binary_search_recursive"
              [.ident "arr", .ident "left",
               .bin .sub (.ident "mid") (.intLit 1), .ident "key"])] [],
          .ret (.call "binary_search_recursive"
            [.ident "arr", .bin .add (.ident "mid") (.intLit 1),
             .ident "right", .ident "key"]) ])
                    (.ok (.retd v s)) :=
                Evals_stmts_cons_norm hif4f
                  (Evals_stmts_cons_norm hif5f (Evals_stmts_cons_ret hret2))
              have hfin := bsr_chain store (.ptr base cnt ad) hlr hm htail
              exact ⟨.ok (.val v s), by simpa [Res.callWrap] using hfin,
                Or.inl ⟨_, _, rfl⟩⟩
            · have hret2 :
                  Evals program62 store
                    (.stmt (bsEnvM (.ptr base cnt ad) l r k m)
                      (.ret (.call "binary_search_recursive"
                        [.ident "arr", .bin .add (.ident "mid") (.intLit 1),
                         .ident "right", .ident "key"])))
                    (.err .outOfBounds) := by
                simpa [hv, Res.bindVal] using hret
              have htail :
                  Evals program62 store
                    (.stmts (bsEnvM (.ptr base cnt ad) l r k m)
                      [ .ifS (.bin .eq (.index (.ident "arr") (.ident "mid")) (.ident "key"))
            [.ret (.ident "mid")] [],
          .ifS (.bin .gt (.index (.ident "arr") (.ident "mid")) (.ident "key"))
            [.ret (.call "binary_search_recursive"
              [.ident "arr", .ident "left",
               .bin .sub (.ident "mid") (.intLit 1), .ident "key"])] [],
          .ret (.call "binary_search_recursive"
            [.ident "arr", .bin .add (.ident "mid") (.intLit 1),
             .ident "right", .ident "key"]) ])
                    (.err .outOfBounds) :=
                Evals_stmts_cons_norm hif4f
                  (Evals_stmts_cons_norm hif5f (Evals_stmts_cons_err hret2))
              have hfin := bsr_chain store (.ptr base cnt ad) hlr hm htail
              exact ⟨.err .outOfBounds, by simpa [Res.callWrap] using hfin, Or.inr rfl⟩
      · have hread : readPtr store (.ptr base cnt (ad + m)) = .err .outOfBounds := by
          simp only [readPtr]
          rw [if_neg hbd]
        have hidxe :
            Evals program62 store
              (.expr (bsEnvM (.ptr base cnt ad) l r k m)
                (.index (.ident "arr") (.ident "mid")))
              (.err .outOfBounds) := by
          simpa [hread, Res.map] using hidx0
        have hc4e :
            Evals program62 store
              (.expr (bsEnvM (.ptr base cnt ad) l r k m)
                (.bin .eq (.index (.ident "arr") (.ident "mid")) (.ident "key")))
              (.err .outOfBounds) :=
          Evals_bin_err_left hidxe
        have htail :
            Evals program62 store
              (.stmts (bsEnvM (.ptr base cnt ad) l r k m)
                [ .ifS (.bin .eq (.index (.ident "arr") (.ident "mid")) (.ident "key"))
            [.ret (.ident "mid")] [],
          .ifS (.bin .gt (.index (.ident "arr") (.ident "mid")) (.ident "key"))
            [.ret (.call "binary_search_recursive"
              [.ident "arr", .ident "left",
               .bin .sub (.ident "mid") (.intLit 1), .ident "key"])] [],
          .ret (.call "binary_search_recursive"
            [.ident "arr", .bin .add (.ident "mid") (.intLit 1),
             .ident "right", .ident "key"]) ])
              (.err .outOfBounds) :=
          Evals_stmts_cons_err (Evals_if_err hc4e)
        have hfin := bsr_chain store (.ptr base cnt ad) hlr hm htail
        exact ⟨.err .outOfBounds, by simpa [Res.callWrap] using hfin, Or.inr rfl⟩

/-- C10: `binary_search_recursive` terminates for every choice of integer
arguments — with a value or with an out-of-bounds error from `arr[mid]` —
and whenever `left ≤ right` the midpoint `(left + right) / 2` under truncating
division satisfies `left ≤ mid ≤ right`, so each recursive call strictly
shrinks the interval. -/
theorem C10_binary_search_terminates (store : Store) (base cnt : Nat)
    (ad l r k : Int) :
    (∃ res,
      Evals program62 store
        (.call "binary_search_recursive"
          [.ptr base cnt ad, .int l, .int r, .int k]) res ∧
      ((∃ v s, res = .ok (.val v s)) ∨ res = .err .outOfBounds)) ∧
    (l ≤ r → l ≤ (l + r).tdiv 2 ∧ (l + r).tdiv 2 ≤ r) :=
  ⟨bsr_terminates store base cnt ad k ((r + 1 - l).toNat) l r (Nat.le_refl _),
   fun h => tdiv_two_between h⟩

/-- Witness for C10 on the fixture store `[1,3,5,7,9]` with
`left = 0`, `right = 4`, `key = 7`. -/
theorem C10_binary_search_terminates_witness :
    (∃ res,
      Evals program62 [1, 3, 5, 7, 9]
        (.call "binary_search_recursive"
          [.ptr 0 5 0, .int 0, .int 4, .int 7]) res ∧
      ((∃ v s, res = .ok (.val v s)) ∨ res = .err .outOfBounds)) ∧
    ((0 : Int) ≤ 4 → (0 : Int) ≤ ((0 : Int) + 4).tdiv 2 ∧
      ((0 : Int) + 4).tdiv 2 ≤ 4) :=
  C10_binary_search_terminates [1, 3, 5, 7, 9] 0 5 0 0 4 7
